import Mathlib

/-!
# Banking system (`pehla.cpp`): account registry and text store

A shallow embedding of the classes `BankAccount` and `Bank` of `pehla.cpp`.

Modelling conventions.

* `int` values are mathematical integers (`Int`).  The only `int` arithmetic in the
  program is `nextAccountNumber++`; a signed overflow there has no defined behaviour in
  C++ and is modelled by `createAccount` returning `none`.  Formatted extraction of an
  `int` range-checks against `[INT_MIN, INT_MAX]` as the stream library does.
* `double` values are IEEE 754 binary64 values (`Double`): finite values with a signed
  zero, infinities and NaN.  `+` and `-` round to nearest, ties to even; `>` and `<=`
  are false on NaN.  The sign of a NaN produced by an invalid operation is that of
  x86-64.
* `std::string` is `List Char`.
* `BankAccount*` obtained from `searchAccount` is the index of the account in the vector;
  reading and writing through the pointer are `Bank.deref` and `Bank.store`.
* Values read from `std::cin` inside a member function (the PIN prompts, the name and
  the initial deposit) are explicit arguments.  Text written to `std::cout` is returned
  as a list of messages; the prompts are left out.
* The amounts of the menu entries of `main` are values `std::cin >> amount` has stored.
  Extraction of a `double` stores finite values only (a field too large for a `double`
  stores the largest finite value); the type `Amount` holds these values.
-/

namespace Banking

/-! ## The type `double` -/

/-- A value of the C++ type `double` (IEEE 754 binary64): a finite value given by its
sign and magnitude (so that `fin true 0` is the negative zero), an infinity, or a NaN
with its sign bit. -/
inductive Double where
  | fin (neg : Bool) (mag : ℚ)
  | inf (neg : Bool)
  | nan (neg : Bool)
deriving DecidableEq

/-- Quotient `num / den` rounded to the nearest integer, ties to even. -/
def roundHalfEven (num den : Nat) : Nat :=
  let q := num / den
  let r := num % den
  if 2 * r < den then q
  else if den < 2 * r then q + 1
  else if q % 2 = 0 then q else q + 1

namespace Double

/-- Number of binary digits of `n`, counted with `fuel` steps. -/
def bitLenAux : Nat → Nat → Nat
  | 0, _ => 0
  | fuel + 1, n => if n = 0 then 0 else bitLenAux fuel (n / 2) + 1

/-- Number of binary digits of `n`: the `k` with `2 ^ (k - 1) ≤ n < 2 ^ k`, and 0 for 0. -/
def bitLen (n : Nat) : Nat := bitLenAux n n

/-- The binary exponent of the positive fraction `n / d`: the `e` with
`2 ^ e ≤ n / d < 2 ^ (e + 1)`. -/
def binExponent (n d : Nat) : Int :=
  let e0 : Int := (bitLen n : Int) - (bitLen d : Int)
  let reached : Bool :=
    if 0 ≤ e0 then decide (d * 2 ^ e0.toNat ≤ n) else decide (d ≤ n * 2 ^ (-e0).toNat)
  if reached then e0 else e0 - 1

/-- The number `m * 2 ^ k` for an integer exponent `k`. -/
def scale2 (m : Nat) (k : Int) : ℚ :=
  if 0 ≤ k then ((m * 2 ^ k.toNat : Nat) : ℚ) else mkRat m (2 ^ (-k).toNat)

/-- Round to nearest, ties to even, of the positive number `q` to a binary64 magnitude:
53 significant bits, exponents from -1022 (below that the spacing stays `2 ^ -1074`) to
1023; `none` when the rounded value is `2 ^ 1024` or more. -/
def roundMag (q : ℚ) : Option ℚ :=
  let n := q.num.natAbs
  let d := q.den
  let e := max (binExponent n d) (-1022)
  let k : Int := 52 - e
  let m := if 0 ≤ k then roundHalfEven (n * 2 ^ k.toNat) d
    else roundHalfEven n (d * 2 ^ (-k).toNat)
  if 1023 < e ∨ (e = 1023 ∧ 2 ^ 53 ≤ m) then none else some (scale2 m (-k))

/-- The magnitudes of the finite binary64 values: `m * 2 ^ (e - 52)` with a mantissa
`m < 2 ^ 53` and an exponent `-1022 ≤ e ≤ 1023`, where `m` has its top bit set unless
`e = -1022`. -/
def IsMagnitude (q : ℚ) : Prop :=
  ∃ (m : Nat) (e : Int), m < 2 ^ 53 ∧ (2 ^ 52 ≤ m ∨ e = -1022) ∧ -1022 ≤ e ∧ e ≤ 1023 ∧
    q = (m : ℚ) * (2 : ℚ) ^ (e - 52)

/-- The largest finite magnitude, `DBL_MAX`. -/
def maxMag : ℚ := ((2 ^ 53 - 1) * 2 ^ 971 : Nat)

/-- The result of an arithmetic operation whose exact value is `x ≠ 0`: the nearest
binary64 value, an infinity on overflow. -/
def nearest (x : ℚ) : Double :=
  match roundMag |x| with
  | some v => fin (decide (x < 0)) v
  | none => inf (decide (x < 0))

/-- The exact value of a finite `double`; 0 for infinities and NaN. -/
def toRat : Double → ℚ
  | fin neg mag => if neg then -mag else mag
  | _ => 0

/-- `std::isfinite`. -/
def isFinite : Double → Bool
  | fin _ _ => true
  | _ => false

/-- `std::isnan`. -/
def isNaN : Double → Bool
  | nan _ => true
  | _ => false

/-- Unary minus: the sign bit is flipped. -/
def neg : Double → Double
  | fin s a => fin (!s) a
  | inf s => inf (!s)
  | nan s => nan (!s)

/-- `a + b` in round-to-nearest mode.  A NaN operand is returned (the first one when
both are); infinities of opposite sign give the default NaN, whose sign bit is set on
x86-64; an exact zero sum is `+0` unless both operands are negative. -/
def add : Double → Double → Double
  | nan s, _ => nan s
  | _, nan s => nan s
  | inf s, inf t => if s = t then inf s else nan true
  | inf s, fin _ _ => inf s
  | fin _ _, inf t => inf t
  | fin s a, fin t b =>
    let x := toRat (fin s a) + toRat (fin t b)
    if x = 0 then fin (s && t) 0 else nearest x

/-- `a - b` in round-to-nearest mode: `a + (-b)`, except that a NaN operand is returned
as it is. -/
def sub (a b : Double) : Double :=
  match a, b with
  | nan s, _ => nan s
  | _, nan s => nan s
  | _, _ => add a (neg b)

/-- `a < b`: false when an operand is NaN; the two zeros are equal. -/
def lt : Double → Double → Bool
  | nan _, _ => false
  | _, nan _ => false
  | inf s, inf t => s && !t
  | inf s, fin _ _ => s
  | fin _ _, inf t => !t
  | fin s a, fin t b => decide (toRat (fin s a) < toRat (fin t b))

/-- `a <= b`: false when an operand is NaN; the two zeros are equal. -/
def le : Double → Double → Bool
  | nan _, _ => false
  | _, nan _ => false
  | inf s, inf t => s || !t
  | inf s, fin _ _ => s
  | fin _ _, inf t => !t
  | fin s a, fin t b => decide (toRat (fin s a) ≤ toRat (fin t b))

instance : Zero Double := ⟨fin false 0⟩
instance : Add Double := ⟨add⟩
instance : Sub Double := ⟨sub⟩
instance : LT Double := ⟨fun a b => lt a b = true⟩
instance : LE Double := ⟨fun a b => le a b = true⟩
instance (a b : Double) : Decidable (a < b) := inferInstanceAs (Decidable (lt a b = true))
instance (a b : Double) : Decidable (a ≤ b) := inferInstanceAs (Decidable (le a b = true))

/-- The conversion of a decimal numeral of sign `neg` and exact magnitude `q` by
`strtod`: the nearest binary64 value with the sign of the numeral, an infinity when the
numeral is too large. -/
def ofDecimal (neg : Bool) (q : ℚ) : Double :=
  if q = 0 then fin neg 0
  else
    match roundMag q with
    | some v => fin neg v
    | none => inf neg

/-- The `double` nearest to the rational `q`. -/
def ofRat (q : ℚ) : Double := ofDecimal (decide (q < 0)) |q|

end Double

/-! ## `class BankAccount` -/

/-- The four data members of `BankAccount`. -/
structure BankAccount where
  accountNumber : Int
  customerName : List Char
  balance : Double
  pin : Int
deriving DecidableEq

namespace BankAccount

/-- `bool verifyPin(int enteredPin) const`. -/
def verifyPin (a : BankAccount) (enteredPin : Int) : Bool :=
  decide (enteredPin = a.pin)

/-- `void deposit(double amount)`: the account afterwards and the text printed. -/
def deposit (a : BankAccount) (amount : Double) : BankAccount × List String :=
  if amount > 0 then
    ({ a with balance := a.balance + amount }, ["Deposit successful!\n"])
  else
    (a, ["Invalid deposit amount!\n"])

/-- `bool withdraw(double amount, int enteredPin)`: the account afterwards, the value
returned and the text printed. -/
def withdraw (a : BankAccount) (amount : Double) (enteredPin : Int) :
    BankAccount × Bool × List String :=
  if !a.verifyPin enteredPin then
    (a, false, ["Incorrect PIN!  Transaction denied.\n"])
  else if amount > 0 ∧ amount ≤ a.balance then
    ({ a with balance := a.balance - amount }, true, ["Withdrawal successful!\n"])
  else
    (a, false, ["Insufficient balance or invalid amount!\n"])

/-- The members of an account that no member function assigns after construction. -/
def ident (a : BankAccount) : Int × List Char × Int :=
  (a.accountNumber, a.customerName, a.pin)

end BankAccount

/-! ## Formatted stream input and output

The stream library is not part of the repository.  The definitions below follow the
behaviour of `std::ostream::operator<<` and of `std::istringstream` extraction in the
classic "C" locale with the default format flags (`skipws | dec`, precision 6). -/

/-- Largest value of a 32-bit `int`. -/
def INT_MAX : Int := 2147483647

/-- Smallest value of a 32-bit `int`. -/
def INT_MIN : Int := -2147483648

/-- The character of the decimal digit `d`. -/
def digitChar (d : Nat) : Char := Char.ofNat (48 + d)

/-- The value of the decimal digit character `c`. -/
def digitVal (c : Char) : Nat := c.toNat - 48

/-- Decimal digits of `n` pushed in front of `acc`, most significant first. -/
def showNatAux : Nat → Nat → List Char → List Char
  | 0, _, acc => acc
  | fuel + 1, n, acc =>
    if n / 10 = 0 then digitChar (n % 10) :: acc
    else showNatAux fuel (n / 10) (digitChar (n % 10) :: acc)

/-- Decimal text of a natural number. -/
def showNat (n : Nat) : List Char := showNatAux (n + 1) n []

/-- `out << int`: decimal text with a leading `-` for negative values. -/
def showInt (i : Int) : List Char :=
  if i < 0 then '-' :: showNat i.natAbs else showNat i.natAbs

/-- `std::isspace` in the "C" locale. -/
def isSpace (c : Char) : Bool :=
  c = ' ' ∨ c = '\t' ∨ c = '\n' ∨ c = Char.ofNat 11 ∨ c = Char.ofNat 12 ∨ c = '\r'

/-- An input string stream: the characters not yet read and two state bits. -/
structure IStream where
  buf : List Char
  eofbit : Bool
  failbit : Bool
deriving DecidableEq

namespace IStream

/-- `std::istringstream iss(line)`, and also `iss.clear(); iss.str(line)`. -/
def ofLine (line : List Char) : IStream := ⟨line, false, false⟩

/-- The sentry of a formatted input function: fails on a stream that is not `good()`,
otherwise skips leading whitespace and fails (setting both bits) at end of input. -/
def sentry (s : IStream) : IStream × Bool :=
  if s.eofbit ∨ s.failbit then ({ s with failbit := true }, false)
  else
    let r := s.buf.dropWhile isSpace
    if r.isEmpty then (⟨r, true, true⟩, false) else (⟨r, false, false⟩, true)

end IStream

/-- Accumulates a run of decimal digits: the value so far, whether a digit was seen,
and the unread rest. -/
def scanDigits : List Char → Nat → Bool → Nat × Bool × List Char
  | [], v, found => (v, found, [])
  | c :: cs, v, found =>
    if c.isDigit then scanDigits cs (v * 10 + digitVal c) true
    else (v, found, c :: cs)

/-- An optional sign at the head of a numeric field: whether it is `-`, and the
characters behind it. -/
def splitSign : List Char → Bool × List Char
  | [] => (false, [])
  | c :: r => if c = '-' then (true, r) else if c = '+' then (false, r) else (false, c :: r)

/-- The end of `iss >> n` for `int n` once the digits are scanned: without digits the
value `0` is written and `failbit` is set; a value outside the `int` range writes the
nearest bound and sets `failbit`; `eofbit` is set when the input is used up. -/
def storeInt (neg : Bool) (r : Nat × Bool × List Char) : IStream × Option Int :=
  let value : Int := if neg then -(r.1 : Int) else (r.1 : Int)
  let rest := r.2.2
  if !r.2.1 then (⟨rest, rest.isEmpty, true⟩, some 0)
  else if value < INT_MIN then (⟨rest, rest.isEmpty, true⟩, some INT_MIN)
  else if value > INT_MAX then (⟨rest, rest.isEmpty, true⟩, some INT_MAX)
  else (⟨rest, rest.isEmpty, false⟩, some value)

/-- `iss >> n` for `int n`: the stream afterwards and the value written to `n`, if any.
After a successful sentry the digits are read behind an optional sign. -/
def extractInt (s : IStream) : IStream × Option Int :=
  match s.sentry with
  | (s1, false) => (s1, none)
  | (s1, true) => storeInt (splitSign s1.buf).1 (scanDigits (splitSign s1.buf).2 0 false)

/-- `iss >> name` for `std::string name`: after the sentry, the characters up to the next
whitespace. -/
def extractString (s : IStream) : IStream × Option (List Char) :=
  match s.sentry with
  | (s1, false) => (s1, none)
  | (s1, true) =>
    let tok := s1.buf.takeWhile (fun c => !isSpace c)
    let rest := s1.buf.dropWhile (fun c => !isSpace c)
    (⟨rest, rest.isEmpty, tok.isEmpty⟩, some tok)

/-- What the floating-point scanner has accumulated. -/
structure FloatAcc where
  /-- all mantissa digits read as one natural number -/
  mant : Nat
  /-- number of mantissa digits behind the decimal point -/
  frac : Nat
  /-- exponent digits read as a natural number -/
  expo : Nat
  expNeg : Bool
  foundExpDigit : Bool
  foundMantissa : Bool
  foundDec : Bool
  foundSci : Bool
  /-- the previous character was the exponent letter, a sign may follow -/
  signNext : Bool
deriving DecidableEq

/-- The scanner state before the first mantissa character. -/
def FloatAcc.start : FloatAcc := ⟨0, 0, 0, false, false, false, false, false, false⟩

/-- The accumulation loop of the floating-point scanner: digits, one decimal point
before the exponent, one exponent letter after at least one mantissa digit, and a sign
directly behind the exponent letter.  Stops in front of the first other character. -/
def scanFloat : List Char → FloatAcc → FloatAcc × List Char
  | [], st => (st, [])
  | c :: cs, st =>
    if st.signNext ∧ (c = '+' ∨ c = '-') then
      scanFloat cs { st with expNeg := decide (c = '-'), signNext := false }
    else if c.isDigit then
      if st.foundSci then
        scanFloat cs { st with expo := st.expo * 10 + digitVal c, foundExpDigit := true,
                               signNext := false }
      else
        scanFloat cs { st with mant := st.mant * 10 + digitVal c,
                               frac := if st.foundDec then st.frac + 1 else st.frac,
                               foundMantissa := true, signNext := false }
    else if c = '.' ∧ !st.foundDec ∧ !st.foundSci then
      scanFloat cs { st with foundDec := true, signNext := false }
    else if (c = 'e' ∨ c = 'E') ∧ !st.foundSci ∧ st.foundMantissa then
      scanFloat cs { st with foundSci := true, signNext := true }
    else (st, c :: cs)


/-- The number `m * 10 ^ k` for an integer exponent `k`. -/
def scale10 (m : Nat) (k : Int) : ℚ :=
  if 0 ≤ k then ((m * 10 ^ k.toNat : Nat) : ℚ) else mkRat m (10 ^ (-k).toNat)

/-- The magnitude the accumulated field denotes: it is a number when it has a mantissa
digit and, if it has an exponent letter, an exponent digit. -/
def FloatAcc.exact (st : FloatAcc) : Option ℚ :=
  if st.foundMantissa ∧ (st.foundSci → st.foundExpDigit) then
    let e : Int := (if st.expNeg then -(st.expo : Int) else (st.expo : Int)) - (st.frac : Int)
    some (scale10 st.mant e)
  else none

/-- The end of `iss >> x` for `double x` once the field is scanned: a field that is not
a number writes `0.0` and sets `failbit`; a number is converted to the nearest `double`;
a number too large for a `double` writes the largest finite value with the sign of the
field and sets `failbit`. -/
def storeDouble (neg : Bool) (r : FloatAcc × List Char) : IStream × Option Double :=
  match r.1.exact with
  | none => (⟨r.2, r.2.isEmpty, true⟩, some 0)
  | some q =>
    match Double.ofDecimal neg q with
    | .inf s => (⟨r.2, r.2.isEmpty, true⟩, some (.fin s Double.maxMag))
    | v => (⟨r.2, r.2.isEmpty, false⟩, some v)

/-- `iss >> x` for `double x`: the stream afterwards and the value written to `x`, if
any.  Leading zeros are scanned as digits, which gives the same value. -/
def extractDouble (s : IStream) : IStream × Option Double :=
  match s.sentry with
  | (s1, false) => (s1, none)
  | (s1, true) =>
    storeDouble (splitSign s1.buf).1 (scanFloat (splitSign s1.buf).2 FloatAcc.start)


/-- The fraction `n / d` times `10 ^ k`, rounded to the nearest integer. -/
def roundScaled (n d : Nat) (k : Int) : Nat :=
  if 0 ≤ k then roundHalfEven (n * 10 ^ k.toNat) d
  else roundHalfEven n (d * 10 ^ (-k).toNat)

/-- The decimal exponent of the positive fraction `n / d`: the `e` with
`10 ^ e ≤ n / d < 10 ^ (e + 1)`. -/
def decExponent (n d : Nat) : Int :=
  let e0 : Int := ((showNat n).length : Int) - ((showNat d).length : Int)
  let reached : Bool :=
    if 0 ≤ e0 then decide (d * 10 ^ e0.toNat ≤ n) else decide (d ≤ n * 10 ^ (-e0).toNat)
  if reached then e0 else e0 - 1

/-- Six significant digits of the positive fraction `n / d` and their decimal exponent:
`n / d` is `m * 10 ^ (x - 5)` up to rounding, with `100000 ≤ m < 1000000`. -/
def sixDigits (n d : Nat) : Nat × Int :=
  let e := decExponent n d
  let m := roundScaled n d (5 - e)
  if m < 1000000 then (m, e) else (100000, e + 1)

/-- Removes the trailing zeros of a fraction part. -/
def stripZeros (ds : List Char) : List Char :=
  (ds.reverse.dropWhile (fun c => c = '0')).reverse

/-- A fraction part behind its decimal point, or nothing when it is empty. -/
def pointFrac (frac : List Char) : List Char :=
  if frac.isEmpty then [] else '.' :: frac

/-- Fixed style of `%g` for six digits `m` and exponent `-4 ≤ x < 6`. -/
def showFixed (m : Nat) (x : Int) : List Char :=
  let ds := showNat m
  if 0 ≤ x then
    ds.take (x.toNat + 1) ++ pointFrac (stripZeros (ds.drop (x.toNat + 1)))
  else
    '0' :: pointFrac (stripZeros (List.replicate ((-x).toNat - 1) '0' ++ ds))

/-- Scientific style of `%g`: one digit, the stripped fraction, and an exponent of at
least two digits. -/
def showSci (m : Nat) (x : Int) : List Char :=
  let ds := showNat m
  let ex := showNat x.natAbs
  ds.take 1 ++ pointFrac (stripZeros (ds.drop 1)) ++
    ('e' :: (if x < 0 then '-' else '+') :: (if ex.length < 2 then '0' :: ex else ex))

/-- The `%g` conversion with precision 6 of a magnitude. -/
def showMag (q : ℚ) : List Char :=
  if q = 0 then ['0']
  else
    let r := sixDigits q.num.natAbs q.den
    if -4 ≤ r.2 ∧ r.2 < 6 then showFixed r.1 r.2 else showSci r.1 r.2

/-- `out << x` for `double x` with the default flags: the `%g` conversion with
precision 6, behind a `-` when the sign bit is set. -/
def showDouble : Double → List Char
  | .fin neg mag => if neg then '-' :: showMag mag else showMag mag
  | .inf neg => if neg then "-inf".toList else "inf".toList
  | .nan neg => if neg then "-nan".toList else "nan".toList

/-- The `while (std::getline(inFile, line))` loop: the lines of a file, `cur` being the
part of the current line already read.  A last line without a newline counts when it is
not empty. -/
def getLinesAux : List Char → List Char → List (List Char)
  | [], cur => if cur.isEmpty then [] else [cur]
  | c :: cs, cur => if c = '\n' then cur :: getLinesAux cs [] else getLinesAux cs (cur ++ [c])

/-- The lines of a file as `std::getline` delivers them. -/
def getLines (content : List Char) : List (List Char) := getLinesAux content []

/-! ## `class Bank` -/

/-- The data members of `Bank`. -/
structure Bank where
  accounts : List BankAccount
  nextAccountNumber : Int
deriving DecidableEq

/-- The range-based `for` of `searchAccount`: position of the first account whose number
is `accountNumber`. -/
def searchIn : List BankAccount → Int → Option Nat
  | [], _ => none
  | a :: rest, accountNumber =>
    if a.accountNumber = accountNumber then some 0
    else (searchIn rest accountNumber).map (· + 1)

namespace Bank

/-- `Bank() : nextAccountNumber(1000) {}`. -/
def init : Bank := ⟨[], 1000⟩

/-- `BankAccount* searchAccount(int accountNumber)`; `none` is `nullptr`. -/
def searchAccount (b : Bank) (accountNumber : Int) : Option Nat :=
  searchIn b.accounts accountNumber

/-- Reading through a pointer returned by `searchAccount`.  The fallback value is never
used for such a pointer (`searchIn_some`). -/
def deref (b : Bank) (p : Nat) : BankAccount :=
  b.accounts.getD p ⟨0, [], 0, 0⟩

/-- Writing through a pointer returned by `searchAccount`. -/
def store (b : Bank) (p : Nat) (a : BankAccount) : Bank :=
  { b with accounts := b.accounts.set p a }

/-- The `do ... while (pin < 1000 || pin > 9999)` loop of `createAccount` over the values
successively read from `std::cin`: the rejected entries (one "Invalid PIN!" line each)
and the entry that ends the loop.  `none` when the input never holds an accepted value. -/
def readPin : List Int → Option (List Int × Int)
  | [] => none
  | pin :: more =>
    if pin < 1000 ∨ pin > 9999 then
      (readPin more).map (fun r => (pin :: r.1, r.2))
    else some ([], pin)

/-- `void createAccount()`.  `name`, `initialDeposit` and `pinInputs` are the values read
from `std::cin`.  The result is `none` when the PIN loop never ends, and when
`nextAccountNumber++` would leave the `int` range. -/
def createAccount (b : Bank) (name : List Char) (initialDeposit : Double) (pinInputs : List Int) :
    Option (Bank × List String) :=
  match readPin pinInputs with
  | none => none
  | some (rejected, pin) =>
    let newAccount : BankAccount := ⟨b.nextAccountNumber, name, initialDeposit, pin⟩
    if INT_MAX < b.nextAccountNumber + 1 then none
    else
      some (⟨b.accounts ++ [newAccount], b.nextAccountNumber + 1⟩,
        rejected.map (fun _ => "Invalid PIN! Please enter a 4-digit number.\n") ++
          ["Account created successfully! Your account number is " ++
            String.mk (showInt newAccount.accountNumber) ++ ".\n"])

/-- `void depositToAccount(int accountNumber, double amount)`. -/
def depositToAccount (b : Bank) (accountNumber : Int) (amount : Double) : Bank × List String :=
  match b.searchAccount accountNumber with
  | some account =>
    let r := (b.deref account).deposit amount
    (b.store account r.1, r.2)
  | none => (b, ["Account not found!\n"])

/-- `void withdrawFromAccount(int accountNumber, double amount)`; `enteredPin` is the
value read from `std::cin` when the account exists. -/
def withdrawFromAccount (b : Bank) (accountNumber : Int) (amount : Double) (enteredPin : Int) :
    Bank × List String :=
  match b.searchAccount accountNumber with
  | some account =>
    let r := (b.deref account).withdraw amount enteredPin
    (b.store account r.1, r.2.2)
  | none => (b, ["Account not found!\n"])

/-- `void transferFunds(int fromAccount, int toAccount, double amount)`; `enteredPin` is
the value read from `std::cin` when both accounts exist.  `toAcc` is read after the
withdrawal has been written, as the two pointers may be equal. -/
def transferFunds (b : Bank) (fromAccount toAccount : Int) (amount : Double) (enteredPin : Int) :
    Bank × List String :=
  match b.searchAccount fromAccount, b.searchAccount toAccount with
  | some fromAcc, some toAcc =>
    if (b.deref fromAcc).verifyPin enteredPin then
      let w := (b.deref fromAcc).withdraw amount enteredPin
      let b1 := b.store fromAcc w.1
      if w.2.1 then
        let d := (b1.deref toAcc).deposit amount
        (b1.store toAcc d.1, w.2.2 ++ d.2 ++ ["Transfer successful!\n"])
      else (b1, w.2.2)
    else (b, ["Incorrect PIN! Transfer denied.\n"])
  | _, _ => (b, ["One or both accounts not found!\n"])

/-- The four fields `saveToFile` writes for one account, separated by single spaces. -/
def recordText (a : BankAccount) : List Char :=
  showInt a.accountNumber ++ ' ' :: (a.customerName ++ ' ' :: (showDouble a.balance ++
    ' ' :: showInt a.pin))

/-- The line `saveToFile` writes for one account. -/
def accountLine (a : BankAccount) : List Char := recordText a ++ ['\n']

/-- The text `saveToFile` writes: one line for each account, then the next account
number. -/
def fileText (b : Bank) : List Char :=
  (b.accounts.map accountLine).flatten ++ (showInt b.nextAccountNumber ++ ['\n'])

/-- `void saveToFile()`; `opened` tells whether the output file could be opened.  The
result is the new content of the file, if it was written, and the text printed. -/
def saveToFile (b : Bank) (opened : Bool) : Option (List Char) × List String :=
  if opened then (some b.fileText, ["Accounts saved to file successfully!\n"])
  else (none, ["Error opening file for saving.\n"])

/-- `iss >> accountNumber >> name >> balance >> pin` on a fresh stream over `line`, and
the account built from the four values when the stream has not failed. -/
def parseAccount (line : List Char) : Option BankAccount :=
  let r1 := extractInt (IStream.ofLine line)
  let r2 := extractString r1.1
  let r3 := extractDouble r2.1
  let r4 := extractInt r3.1
  if r4.1.failbit then none
  else
    match r1.2, r2.2, r3.2, r4.2 with
    | some accountNumber, some name, some balance, some pin =>
      some ⟨accountNumber, name, balance, pin⟩
    | _, _, _, _ => none

/-- One round of the loop of `loadFromFile`: an account line is appended; for any other
line the stream is reset and `iss >> nextAccountNumber` is run, which writes the
variable unless the sentry fails. -/
def loadLine (b : Bank) (line : List Char) : Bank :=
  match parseAccount line with
  | some a => { b with accounts := b.accounts ++ [a] }
  | none =>
    match (extractInt (IStream.ofLine line)).2 with
    | some v => { b with nextAccountNumber := v }
    | none => b

/-- The body of `loadFromFile` once the file is open: `accounts.clear()` and the loop
over the lines. -/
def loadLines (b : Bank) (lines : List (List Char)) : Bank :=
  lines.foldl loadLine { b with accounts := [] }

/-- `void loadFromFile()`; `file` is the content of the file, `none` when it cannot be
opened. -/
def loadFromFile (b : Bank) (file : Option (List Char)) : Bank × List String :=
  match file with
  | some content =>
    let b1 := b.loadLines (getLines content)
    (b1, ["Accounts loaded from file successfully! Next account number: " ++
      String.mk (showInt b1.nextAccountNumber) ++ "\n"])
  | none => (b, ["Error opening file for loading.\n"])

/-- `iss >> nextAccountNumber` on a fresh stream over `line`, when it succeeds: the line
starts, after whitespace, with an integer of the `int` range. -/
def parseInt (line : List Char) : Option Int :=
  let r := extractInt (IStream.ofLine line)
  if r.1.failbit then none else r.2


/-- The balance shown by menu entry 4 (balance inquiry) for `accountNumber`. -/
def balanceOf (b : Bank) (accountNumber : Int) : Option Double :=
  (b.searchAccount accountNumber).map (fun account => (b.deref account).balance)

/-- Sum of all balances of the registry, as an exact number. -/
def totalBalance (b : Bank) : ℚ := (b.accounts.map (·.balance.toRat)).sum

end Bank

/-! ## The menu loop of `main` -/

/-- A value that `std::cin >> amount` has stored in a `double amount`: extraction stores
finite values only. -/
structure Amount where
  val : Double
  finite : val.isFinite = true

/-- The value `std::cin >> amount` stores when the decimal number `q` is typed: the
nearest `double`, and the largest finite value of the sign of `q` when `q` is too large
for a `double`. -/
def Amount.ofRat (q : ℚ) : Amount :=
  match Double.ofRat q with
  | .fin s m => ⟨.fin s m, rfl⟩
  | .inf s => ⟨.fin s Double.maxMag, rfl⟩
  | .nan _ => ⟨0, rfl⟩

/-- The state-changing menu entries of `main` with the values read for them. -/
inductive Op where
  | create (name : List Char) (initialDeposit : Amount) (pinInputs : List Int)
  | deposit (accountNumber : Int) (amount : Amount)
  | withdraw (accountNumber : Int) (amount : Amount) (enteredPin : Int)
  | transfer (fromAccount toAccount : Int) (amount : Amount) (enteredPin : Int)

/-- The PIN loop of a `create` entry ends: some entered value lies in [1000, 9999]. -/
def Op.PinAccepted : Op → Prop
  | .create _ _ pinInputs => (Bank.readPin pinInputs).isSome
  | _ => True

/-- Whether the entry is menu entry 1 (create account). -/
def Op.isCreate : Op → Bool
  | .create _ _ _ => true
  | _ => false

namespace Bank

/-- One pass through the `switch` of `main` (cases 1, 2, 3 and 5). -/
def step (b : Bank) : Op → Option Bank
  | .create name initialDeposit pinInputs =>
    (b.createAccount name initialDeposit.val pinInputs).map (·.1)
  | .deposit accountNumber amount => some (b.depositToAccount accountNumber amount.val).1
  | .withdraw accountNumber amount enteredPin =>
    some (b.withdrawFromAccount accountNumber amount.val enteredPin).1
  | .transfer fromAccount toAccount amount enteredPin =>
    some (b.transferFunds fromAccount toAccount amount.val enteredPin).1

/-- A sequence of menu entries run one after the other. -/
def run (b : Bank) : List Op → Option Bank
  | [] => some b
  | op :: ops => (b.step op).bind (fun b1 => b1.run ops)

/-- The number of create entries in a sequence of menu entries. -/
def creates (ops : List Op) : Nat := ops.countP Op.isCreate

/-- Frame of an operation on existing accounts: `nextAccountNumber` is the same, and so
is the sequence of (number, name, PIN) of the accounts, in length, order and content. -/
def Framed (b b1 : Bank) : Prop :=
  b1.nextAccountNumber = b.nextAccountNumber ∧
    b1.accounts.map (·.ident) = b.accounts.map (·.ident)

/-- The numbering invariant of the registry: every account number is below
`nextAccountNumber` and no number occurs twice. -/
def NumbersOk (b : Bank) : Prop :=
  (∀ a ∈ b.accounts, a.accountNumber < b.nextAccountNumber) ∧
    (b.accounts.map (·.accountNumber)).Nodup

/-- The registry of scenarios S4 and S5 before the transfer: Alice with 130.00 and Bob
with 0.00. -/
def registryS4 : Bank :=
  ⟨[⟨1000, "Alice".toList, Double.ofRat 130, 4321⟩, ⟨1001, "Bob".toList, Double.ofRat 0, 1111⟩],
    1002⟩

/-- The registry of scenario S6: Alice with 100.00 and Bob with 30.00. -/
def registryS6 : Bank :=
  ⟨[⟨1000, "Alice".toList, Double.ofRat 100, 4321⟩, ⟨1001, "Bob".toList, Double.ofRat 30, 1111⟩],
    1002⟩

/-- The menu entries of scenarios S1 to S5 in order; the PIN 0000 of S2 is the
integer 0, and Alice first enters a three-digit PIN that the loop rejects. -/
def scenarioOps : List Op :=
  [.create "Alice".toList (Amount.ofRat 100) [432, 4321], .deposit 1000 (Amount.ofRat 50),
   .withdraw 1000 (Amount.ofRat 20) 0, .withdraw 1000 (Amount.ofRat 20) 4321,
   .withdraw 1000 (Amount.ofRat 500) 4321, .create "Bob".toList (Amount.ofRat 0) [1111],
   .transfer 1000 1001 (Amount.ofRat 30) 9999, .transfer 1000 1001 (Amount.ofRat 30) 4321]

/-- Whether `transferFunds` reported success. -/
def transferSucceeded (r : Bank × List String) : Bool :=
  decide ("Transfer successful!\n" ∈ r.2)

end Bank


/-! ## Order and arithmetic of `double` -/

namespace Double

theorem zero_def : (0 : Double) = fin false 0 := rfl

theorem lt_iff (a b : Double) : a < b ↔ lt a b = true := Iff.rfl

theorem le_iff (a b : Double) : a ≤ b ↔ le a b = true := Iff.rfl

theorem add_def (a b : Double) : a + b = add a b := rfl

theorem sub_def (a b : Double) : a - b = sub a b := rfl

theorem toRat_zero : toRat (fin false 0) = 0 := rfl

theorem toRat_neg_fin (s : Bool) (x : ℚ) : toRat (fin (!s) x) = -toRat (fin s x) := by
  cases s <;> simp [toRat]

/-- The guard `amount > 0 && amount <= balance` fails exactly when `amount <= 0`, or
`balance < amount`, or one of the two is a NaN. -/
theorem not_guard_iff (amount balance : Double) :
    ¬ (0 < amount ∧ amount ≤ balance) ↔
      amount ≤ 0 ∨ balance < amount ∨ amount.isNaN = true ∨ balance.isNaN = true := by
  cases amount with
  | nan s => simp [lt_iff, le_iff, zero_def, lt, le, isNaN]
  | inf s =>
    cases balance with
    | nan t => simp [lt_iff, le_iff, zero_def, lt, le, isNaN]
    | inf t => cases s <;> cases t <;> simp [lt_iff, le_iff, zero_def, lt, le, isNaN]
    | fin t y => cases s <;> simp [lt_iff, le_iff, zero_def, lt, le, isNaN]
  | fin s x =>
    cases balance with
    | nan t => simp [lt_iff, le_iff, zero_def, lt, le, isNaN]
    | inf t =>
      cases t <;> simp [lt_iff, le_iff, zero_def, lt, le, isNaN, toRat_zero]
    | fin t y =>
      simp only [lt_iff, le_iff, zero_def, lt, le, isNaN, toRat_zero, decide_eq_true_eq,
        Bool.false_eq_true, or_false]
      constructor
      · intro h
        by_contra hc
        simp only [not_or, not_le, not_lt] at hc
        exact h hc
      · rintro (h | h) ⟨h1, h2⟩
        · exact absurd h1 (not_lt.mpr h)
        · exact absurd h2 (not_le.mpr h)

theorem not_pos_of_le_zero {a : Double} (h : a ≤ 0) : ¬ 0 < a := by
  cases a with
  | nan s => simp [lt_iff, zero_def, lt]
  | inf s => cases s <;> simp_all [lt_iff, le_iff, zero_def, lt, le]
  | fin s x =>
    simp only [lt_iff, le_iff, zero_def, lt, le, toRat_zero, decide_eq_true_eq] at h ⊢
    exact not_lt.mpr h

/-- The sum of two finite values whose exact sum is not zero is the exact sum rounded to
the nearest `double`. -/
theorem add_eq_nearest {a b : Double} (ha : a.isFinite = true) (hb : b.isFinite = true)
    (hne : a.toRat + b.toRat ≠ 0) : a + b = nearest (a.toRat + b.toRat) := by
  cases a with
  | nan s => simp [isFinite] at ha
  | inf s => simp [isFinite] at ha
  | fin s x =>
    cases b with
    | nan t => simp [isFinite] at hb
    | inf t => simp [isFinite] at hb
    | fin t y => simp only [add_def, add, hne, if_false]

/-- The difference of two finite values whose exact difference is not zero is the exact
difference rounded to the nearest `double`. -/
theorem sub_eq_nearest {a b : Double} (ha : a.isFinite = true) (hb : b.isFinite = true)
    (hne : a.toRat - b.toRat ≠ 0) : a - b = nearest (a.toRat - b.toRat) := by
  cases a with
  | nan s => simp [isFinite] at ha
  | inf s => simp [isFinite] at ha
  | fin s x =>
    cases b with
    | nan t => simp [isFinite] at hb
    | inf t => simp [isFinite] at hb
    | fin t y =>
      have h : toRat (fin s x) + -toRat (fin t y) ≠ 0 := by rwa [← sub_eq_add_neg]
      simp only [sub_def, sub, neg, add, toRat_neg_fin, h, if_false, sub_eq_add_neg]

end Double
/-! ## Rounding to the nearest `double` -/

namespace Double

theorem bitLenAux_spec (fuel n : Nat) (h : n ≤ fuel) (hn : 0 < n) :
    ∃ k, bitLenAux fuel n = k + 1 ∧ 2 ^ k ≤ n ∧ n < 2 ^ (k + 1) := by
  induction fuel generalizing n with
  | zero => omega
  | succ f ih =>
    unfold bitLenAux
    rw [if_neg (by omega)]
    by_cases h1 : n / 2 = 0
    · refine ⟨0, ?_, by omega, by omega⟩
      rw [h1]
      cases f <;> simp [bitLenAux]
    · obtain ⟨k, hk, h2, h3⟩ := ih (n / 2) (by omega) (by omega)
      exact ⟨k + 1, by rw [hk], by rw [pow_succ]; omega, by rw [pow_succ]; omega⟩

theorem bitLen_spec (n : Nat) (hn : 0 < n) :
    ∃ k, bitLen n = k + 1 ∧ 2 ^ k ≤ n ∧ n < 2 ^ (k + 1) :=
  bitLenAux_spec n n (le_refl n) hn

/-- The binary exponent brackets the fraction between two neighbouring powers of two. -/
theorem binExponent_bounds (N D : Nat) (hN : 0 < N) (hD : 0 < D) :
    (2 : ℚ) ^ (binExponent N D) ≤ (N : ℚ) / D ∧
      (N : ℚ) / D < (2 : ℚ) ^ (binExponent N D + 1) := by
  obtain ⟨kN, hlN, hN1, hN2⟩ := bitLen_spec N hN
  obtain ⟨kD, hlD, hD1, hD2⟩ := bitLen_spec D hD
  have h2 : (2 : ℚ) ≠ 0 := by norm_num
  have h2p : (0 : ℚ) < 2 := by norm_num
  have hDq : (0 : ℚ) < D := by exact_mod_cast hD
  have hNq : (0 : ℚ) < N := by exact_mod_cast hN
  have hN1q : (2 : ℚ) ^ kN ≤ N := by exact_mod_cast hN1
  have hN2q : (N : ℚ) < (2 : ℚ) ^ (kN + 1) := by exact_mod_cast hN2
  have hD1q : (2 : ℚ) ^ kD ≤ D := by exact_mod_cast hD1
  have hD2q : (D : ℚ) < (2 : ℚ) ^ (kD + 1) := by exact_mod_cast hD2
  have he0 : ((bitLen N : Int) - (bitLen D : Int)) = (kN : Int) - kD := by
    rw [hlN, hlD]; push_cast; ring
  have hupper : (N : ℚ) / D < (2 : ℚ) ^ ((kN : Int) - kD + 1) := by
    have : (2 : ℚ) ^ ((kN : Int) - kD + 1) = (2 : ℚ) ^ (kN + 1) / (2 : ℚ) ^ kD := by
      rw [show (kN : Int) - kD + 1 = ((kN + 1 : Nat) : Int) - (kD : Nat) by push_cast; ring,
        zpow_sub₀ h2, zpow_natCast, zpow_natCast]
    rw [this, div_lt_div_iff₀ hDq (pow_pos h2p kD)]
    calc (N : ℚ) * (2 : ℚ) ^ kD < (2 : ℚ) ^ (kN + 1) * (2 : ℚ) ^ kD :=
          mul_lt_mul_of_pos_right hN2q (pow_pos h2p kD)
      _ ≤ (2 : ℚ) ^ (kN + 1) * D :=
          mul_le_mul_of_nonneg_left hD1q (pow_pos h2p _).le
  have hlower : (2 : ℚ) ^ ((kN : Int) - kD - 1) < (N : ℚ) / D := by
    have : (2 : ℚ) ^ ((kN : Int) - kD - 1) = (2 : ℚ) ^ kN / (2 : ℚ) ^ (kD + 1) := by
      rw [show (kN : Int) - kD - 1 = ((kN : Nat) : Int) - ((kD + 1 : Nat) : Int) by
        push_cast; ring, zpow_sub₀ h2, zpow_natCast, zpow_natCast]
    rw [this, div_lt_div_iff₀ (pow_pos h2p _) hDq]
    calc (2 : ℚ) ^ kN * D < (2 : ℚ) ^ kN * (2 : ℚ) ^ (kD + 1) :=
          mul_lt_mul_of_pos_left hD2q (pow_pos h2p kN)
      _ ≤ N * (2 : ℚ) ^ (kD + 1) :=
          mul_le_mul_of_nonneg_right hN1q (pow_pos h2p _).le
  have hreach : (if 0 ≤ (kN : Int) - kD then decide (D * 2 ^ ((kN : Int) - kD).toNat ≤ N)
      else decide (D ≤ N * 2 ^ (-((kN : Int) - kD)).toNat)) = true ↔
      (2 : ℚ) ^ ((kN : Int) - kD) ≤ (N : ℚ) / D := by
    split_ifs with hs
    · obtain ⟨n, hn⟩ := Int.eq_ofNat_of_zero_le hs
      rw [hn, Int.toNat_ofNat, zpow_natCast, le_div_iff₀ hDq, decide_eq_true_iff]
      constructor
      · intro h
        have : ((D * 2 ^ n : Nat) : ℚ) ≤ N := by exact_mod_cast h
        push_cast at this
        linarith
      · intro h
        have : ((D * 2 ^ n : Nat) : ℚ) ≤ N := by push_cast; linarith
        exact_mod_cast this
    · push_neg at hs
      obtain ⟨n, hn⟩ : ∃ n : Nat, (kN : Int) - kD = -(n : Int) :=
        ⟨(-((kN : Int) - kD)).toNat, by omega⟩
      rw [hn, neg_neg, Int.toNat_ofNat, zpow_neg, zpow_natCast, le_div_iff₀ hDq,
        decide_eq_true_iff]
      constructor
      · intro h
        have : (D : ℚ) ≤ ((N * 2 ^ n : Nat) : ℚ) := by exact_mod_cast h
        push_cast at this
        rw [inv_mul_le_iff₀ (pow_pos h2p n)]
        linarith
      · intro h
        rw [inv_mul_le_iff₀ (pow_pos h2p n)] at h
        have : (D : ℚ) ≤ ((N * 2 ^ n : Nat) : ℚ) := by push_cast; linarith
        exact_mod_cast this
  unfold binExponent
  simp only [he0]
  by_cases hr : (if 0 ≤ (kN : Int) - kD then decide (D * 2 ^ ((kN : Int) - kD).toNat ≤ N)
      else decide (D ≤ N * 2 ^ (-((kN : Int) - kD)).toNat)) = true
  · rw [if_pos hr]
    exact ⟨hreach.mp hr, hupper⟩
  · rw [if_neg hr]
    have hlt : (N : ℚ) / D < (2 : ℚ) ^ ((kN : Int) - kD) := by
      by_contra hc
      exact hr (hreach.mpr (not_lt.mp hc))
    refine ⟨hlower.le, ?_⟩
    rw [sub_add_cancel]
    exact hlt

end Double

/-- The rounded quotient is within one half of the exact quotient. -/
theorem roundHalfEven_near (num den : Nat) (hden : 0 < den) :
    |(roundHalfEven num den : ℚ) - (num : ℚ) / den| ≤ 1 / 2 := by
  have hdq : (0 : ℚ) < den := by exact_mod_cast hden
  have hsplit : (num : ℚ) = den * (num / den : Nat) + (num % den : Nat) := by
    exact_mod_cast (Nat.div_add_mod num den).symm
  have hr : (num % den : Nat) < den := Nat.mod_lt _ hden
  have hrq : ((num % den : Nat) : ℚ) < den := by exact_mod_cast hr
  have hr0 : (0 : ℚ) ≤ ((num % den : Nat) : ℚ) := Nat.cast_nonneg _
  have hquot : (num : ℚ) / den = (num / den : Nat) + ((num % den : Nat) : ℚ) / den := by
    rw [hsplit]
    field_simp
    ring
  rw [hquot, abs_le]
  unfold roundHalfEven
  simp only []
  split_ifs with h1 h2 h3
  · have : (2 : ℚ) * (num % den : Nat) < den := by exact_mod_cast h1
    have hfr : ((num % den : Nat) : ℚ) / den < 1 / 2 := by
      rw [div_lt_div_iff₀ hdq (by norm_num)]; linarith
    have hfr0 : 0 ≤ ((num % den : Nat) : ℚ) / den := div_nonneg hr0 hdq.le
    constructor <;> linarith
  · have : (den : ℚ) < 2 * (num % den : Nat) := by exact_mod_cast h2
    have hfr : 1 / 2 < ((num % den : Nat) : ℚ) / den := by
      rw [div_lt_div_iff₀ (by norm_num) hdq]; linarith
    have hfr1 : ((num % den : Nat) : ℚ) / den < 1 := by
      rw [div_lt_one hdq]; exact hrq
    push_cast
    constructor <;> linarith
  · have he : 2 * (num % den) = den := by omega
    have : (2 : ℚ) * (num % den : Nat) = den := by exact_mod_cast he
    have hfr : ((num % den : Nat) : ℚ) / den = 1 / 2 := by
      rw [div_eq_div_iff hdq.ne' (by norm_num)]; linarith
    constructor <;> linarith
  · have he : 2 * (num % den) = den := by omega
    have : (2 : ℚ) * (num % den : Nat) = den := by exact_mod_cast he
    have hfr : ((num % den : Nat) : ℚ) / den = 1 / 2 := by
      rw [div_eq_div_iff hdq.ne' (by norm_num)]; linarith
    push_cast
    constructor <;> linarith

namespace Double

theorem scale2_eq (m : Nat) (k : Int) : scale2 m k = (m : ℚ) * (2 : ℚ) ^ k := by
  unfold scale2
  split_ifs with hk
  · obtain ⟨n, rfl⟩ := Int.eq_ofNat_of_zero_le hk
    simp [zpow_natCast]
  · push_neg at hk
    obtain ⟨n, hn⟩ : ∃ n : Nat, k = -(n : Int) := ⟨(-k).toNat, by omega⟩
    subst hn
    rw [Rat.mkRat_eq_div]
    simp [zpow_neg, div_eq_mul_inv]

/-- The scaled and rounded mantissa is within one half of the exact scaled value. -/
theorem roundShift_near (n d : Nat) (hd : 0 < d) (k : Int) :
    |(((if 0 ≤ k then roundHalfEven (n * 2 ^ k.toNat) d
        else roundHalfEven n (d * 2 ^ (-k).toNat) : Nat) : ℚ)) -
      (n : ℚ) / d * (2 : ℚ) ^ k| ≤ 1 / 2 := by
  have hdq : (d : ℚ) ≠ 0 := by exact_mod_cast hd.ne'
  split_ifs with hk
  · obtain ⟨j, rfl⟩ := Int.eq_ofNat_of_zero_le hk
    have h := roundHalfEven_near (n * 2 ^ j) d hd
    have e : ((n * 2 ^ j : Nat) : ℚ) / d = (n : ℚ) / d * (2 : ℚ) ^ (j : Int) := by
      rw [zpow_natCast]; push_cast; ring
    rw [e] at h
    simpa using h
  · push_neg at hk
    obtain ⟨j, hj⟩ : ∃ j : Nat, k = -(j : Int) := ⟨(-k).toNat, by omega⟩
    subst hj
    have h := roundHalfEven_near n (d * 2 ^ j) (by positivity)
    have e : (n : ℚ) / ((d * 2 ^ j : Nat) : ℚ) = (n : ℚ) / d * (2 : ℚ) ^ (-(j : Int)) := by
      rw [zpow_neg, zpow_natCast]; push_cast; field_simp
    rw [e] at h
    simpa using h

/-- What `roundMag` computes for a positive `q`: the binade `2 ^ e ≤ q < 2 ^ (e + 1)` of
`q` (the lowest binade, `e = -1022`, reaching down to zero), and the multiple `m` of the
spacing `2 ^ (e - 52)` of that binade nearest to `q`; the result is `m * 2 ^ (e - 52)`
unless that is `2 ^ 1024` or more. -/
theorem roundMag_cases {q : ℚ} (hq : 0 < q) :
    ∃ (m : Nat) (e : Int), -1022 ≤ e ∧ q < (2 : ℚ) ^ (e + 1) ∧ (-1022 < e → (2 : ℚ) ^ e ≤ q) ∧
      |(m : ℚ) - q * (2 : ℚ) ^ (52 - e)| ≤ 1 / 2 ∧
      roundMag q = if 1023 < e ∨ (e = 1023 ∧ 2 ^ 53 ≤ m) then none
        else some ((m : ℚ) * (2 : ℚ) ^ (e - 52)) := by
  have h1lt : (1 : ℚ) < 2 := by norm_num
  have hnum : 0 < q.num := Rat.num_pos.mpr hq
  have hn : 0 < q.num.natAbs := Int.natAbs_pos.mpr hnum.ne'
  have hd : 0 < q.den := q.den_pos
  have hnd : (q.num.natAbs : ℚ) / q.den = q := by
    have : ((q.num.natAbs : Int) : ℚ) = q.num := by
      rw [Int.natAbs_of_nonneg hnum.le]
    rw [← Int.cast_natCast, this]
    exact Rat.num_div_den q
  obtain ⟨hb1, hb2⟩ := binExponent_bounds q.num.natAbs q.den hn hd
  rw [hnd] at hb1 hb2
  have hnear := roundShift_near q.num.natAbs q.den hd
    (52 - max (binExponent q.num.natAbs q.den) (-1022))
  rw [hnd] at hnear
  refine ⟨_, max (binExponent q.num.natAbs q.den) (-1022), le_max_right _ _,
    lt_of_lt_of_le hb2 (zpow_le_zpow_right₀ h1lt.le (by
      have := le_max_left (binExponent q.num.natAbs q.den) (-1022)
      omega)), ?_, hnear, ?_⟩
  · intro hgt
    rcases le_total (binExponent q.num.natAbs q.den) (-1022) with hc | hc
    · rw [max_eq_right hc] at hgt
      omega
    · rw [max_eq_left hc]
      exact hb1
  · unfold roundMag
    simp only [scale2_eq]
    congr 3
    rw [neg_sub]

/-- The mantissa of `roundMag_cases` has at most 53 bits, or is `2 ^ 53`; and at least 53
bits above the lowest binade. -/
theorem mantissa_bounds {q : ℚ} {m : Nat} {e : Int} (hlt : q < (2 : ℚ) ^ (e + 1))
    (hnear : |(m : ℚ) - q * (2 : ℚ) ^ (52 - e)| ≤ 1 / 2) :
    m ≤ 2 ^ 53 ∧ ((2 : ℚ) ^ e ≤ q → 2 ^ 52 ≤ m) := by
  have h2 : (2 : ℚ) ≠ 0 := by norm_num
  have hk : (0 : ℚ) < (2 : ℚ) ^ (52 - e) := zpow_pos (by norm_num) _
  have hx : q * (2 : ℚ) ^ (52 - e) < (2 : ℚ) ^ (53 : Nat) := by
    have : (2 : ℚ) ^ (53 : Nat) = (2 : ℚ) ^ (e + 1) * (2 : ℚ) ^ (52 - e) := by
      rw [← zpow_add₀ h2, show e + 1 + (52 - e) = ((53 : Nat) : Int) by push_cast; ring,
        zpow_natCast]
    rw [this]
    exact mul_lt_mul_of_pos_right hlt hk
  obtain ⟨hn1, hn2⟩ := abs_le.mp hnear
  constructor
  · by_contra hc
    push_neg at hc
    have : ((2 ^ 53 + 1 : Nat) : ℚ) ≤ m := by exact_mod_cast hc
    push_cast at this
    linarith
  · intro hge
    have hx2 : (2 : ℚ) ^ (52 : Nat) ≤ q * (2 : ℚ) ^ (52 - e) := by
      have : (2 : ℚ) ^ (52 : Nat) = (2 : ℚ) ^ e * (2 : ℚ) ^ (52 - e) := by
        rw [← zpow_add₀ h2, show e + (52 - e) = ((52 : Nat) : Int) by push_cast; ring,
          zpow_natCast]
      rw [this]
      exact mul_le_mul_of_nonneg_right hge hk.le
    by_contra hc
    push_neg at hc
    have : ((m + 1 : Nat) : ℚ) ≤ ((2 ^ 52 : Nat) : ℚ) := by exact_mod_cast hc
    push_cast at this
    linarith

/-- What `roundMag` returns for a positive `q`: a multiple `m * 2 ^ (e - 52)` of the
spacing of the binary64 values in the binade of `q`, with at most 53 bits in `m`, that
lies within half a spacing of `q`. -/
theorem roundMag_spec {q v : ℚ} (hq : 0 < q) (h : roundMag q = some v) :
    ∃ (m : Nat) (e : Int), -1022 ≤ e ∧ e ≤ 1023 ∧ m ≤ 2 ^ 53 ∧ (e = 1023 → m < 2 ^ 53) ∧
      v = (m : ℚ) * (2 : ℚ) ^ (e - 52) ∧ |v - q| ≤ (2 : ℚ) ^ (e - 53) ∧
      q < (2 : ℚ) ^ (e + 1) ∧ (-1022 < e → (2 : ℚ) ^ e ≤ q) := by
  have h2 : (2 : ℚ) ≠ 0 := by norm_num
  obtain ⟨m, e, hlow, hqlt, hqge, hnear, hr⟩ := roundMag_cases hq
  rw [hr] at h
  split_ifs at h with hov
  simp only [Option.some.injEq] at h
  push_neg at hov
  refine ⟨m, e, hlow, ?_, (mantissa_bounds hqlt hnear).1, ?_, h.symm, ?_, hqlt, hqge⟩
  · by_contra hc
    exact absurd (hov.1) (by omega)
  · intro he1
    exact hov.2 he1
  · rw [← h]
    have hs : (0 : ℚ) < (2 : ℚ) ^ (e - 52) := zpow_pos (by norm_num) _
    have e1 : (m : ℚ) * (2 : ℚ) ^ (e - 52) - q =
        ((m : ℚ) - q * (2 : ℚ) ^ (52 - e)) * (2 : ℚ) ^ (e - 52) := by
      rw [sub_mul, mul_assoc, ← zpow_add₀ h2, show 52 - e + (e - 52) = 0 by ring, zpow_zero,
        mul_one]
    have e2 : (2 : ℚ) ^ (e - 53) = 1 / 2 * (2 : ℚ) ^ (e - 52) := by
      rw [show e - 53 = -1 + (e - 52) by ring, zpow_add₀ h2]
      norm_num
    rw [e1, abs_mul, abs_of_pos hs, e2]
    exact mul_le_mul_of_nonneg_right hnear hs.le

/-- A positive magnitude of the binary64 format is its own rounding. -/
theorem roundMag_of_isMagnitude {q : ℚ} (hq : 0 < q) (hrep : IsMagnitude q) :
    roundMag q = some q := by
  have h2 : (2 : ℚ) ≠ 0 := by norm_num
  have h1lt : (1 : ℚ) < 2 := by norm_num
  obtain ⟨M, E, hM, hnorm, hE1, hE2, hqM⟩ := hrep
  obtain ⟨m, e, hlow, hqlt, hqge, hnear, hr⟩ := roundMag_cases hq
  have hs : (0 : ℚ) < (2 : ℚ) ^ (E - 52) := zpow_pos (by norm_num) _
  -- the binade of `q` read off its mantissa
  have hqE : q < (2 : ℚ) ^ (E + 1) := by
    have : (2 : ℚ) ^ (E + 1) = (2 : ℚ) ^ (53 : Nat) * (2 : ℚ) ^ (E - 52) := by
      rw [← zpow_natCast, ← zpow_add₀ h2]
      congr 1
      push_cast
      ring
    rw [this, hqM]
    exact mul_lt_mul_of_pos_right (by exact_mod_cast hM) hs
  have hqE2 : 2 ^ 52 ≤ M → (2 : ℚ) ^ E ≤ q := by
    intro h52
    have : (2 : ℚ) ^ E = (2 : ℚ) ^ (52 : Nat) * (2 : ℚ) ^ (E - 52) := by
      rw [← zpow_natCast, ← zpow_add₀ h2]
      congr 1
      push_cast
      ring
    rw [this, hqM]
    exact mul_le_mul_of_nonneg_right (by exact_mod_cast h52) hs.le
  have hee : e = E := by
    rcases lt_or_eq_of_le hlow with hgt | heq
    · have h1 : e < E + 1 := (zpow_lt_zpow_iff_right₀ h1lt).mp (lt_of_le_of_lt (hqge hgt) hqE)
      rcases hnorm with h52 | hEm
      · have h3 : E < e + 1 :=
          (zpow_lt_zpow_iff_right₀ h1lt).mp (lt_of_le_of_lt (hqE2 h52) hqlt)
        omega
      · omega
    · rcases hnorm with h52 | hEm
      · have h3 : E < e + 1 :=
          (zpow_lt_zpow_iff_right₀ h1lt).mp (lt_of_le_of_lt (hqE2 h52) hqlt)
        omega
      · omega
  subst hee
  have hx : q * (2 : ℚ) ^ (52 - e) = M := by
    rw [hqM, mul_assoc, ← zpow_add₀ h2, show e - 52 + (52 - e) = 0 by ring, zpow_zero, mul_one]
  rw [hx] at hnear
  have hmM : m = M := by
    obtain ⟨hn1, hn2⟩ := abs_le.mp hnear
    have h1 : (m : ℚ) < M + 1 := by linarith
    have h3 : (M : ℚ) < m + 1 := by linarith
    have h1n : m < M + 1 := by exact_mod_cast h1
    have h3n : M < m + 1 := by exact_mod_cast h3
    omega
  rw [hr, hmM, if_neg (by omega), hqM]

/-- The value `roundMag` returns is a magnitude of the binary64 format. -/
theorem isMagnitude_of_roundMag {q v : ℚ} (hq : 0 < q) (h : roundMag q = some v) :
    IsMagnitude v := by
  have h2 : (2 : ℚ) ≠ 0 := by norm_num
  obtain ⟨m, e, hlow, hqlt, hqge, hnear, hr⟩ := roundMag_cases hq
  rw [hr] at h
  split_ifs at h with hov
  simp only [Option.some.injEq] at h
  push_neg at hov
  have he : e ≤ 1023 := by
    by_contra hc
    exact absurd (hov.1) (by omega)
  obtain ⟨hm1, hm2⟩ := mantissa_bounds hqlt hnear
  rcases lt_or_eq_of_le hm1 with hlt | heq
  · refine ⟨m, e, hlt, ?_, hlow, he, h.symm⟩
    rcases lt_or_eq_of_le hlow with hgt | heq
    · exact Or.inl (hm2 (hqge hgt))
    · exact Or.inr heq.symm
  · have he1 : e < 1023 := by
      rcases lt_or_eq_of_le he with h1 | h1
      · exact h1
      · exact absurd (hov.2 h1) (by omega)
    refine ⟨2 ^ 52, e + 1, by norm_num, Or.inl (le_refl _), by omega, by omega, ?_⟩
    rw [← h, heq]
    have : (2 : ℚ) ^ (e + 1 - 52) = 2 * (2 : ℚ) ^ (e - 52) := by
      rw [show e + 1 - 52 = 1 + (e - 52) by ring, zpow_add₀ h2, zpow_one]
    rw [this]
    push_cast
    ring

end Double

namespace Double

theorem toRat_fin_abs (x : ℚ) : toRat (fin (decide (x < 0)) |x|) = x := by
  unfold toRat
  by_cases h : x < 0
  · simp [h, abs_of_neg h]
  · simp [h, abs_of_nonneg (not_lt.mp h)]

/-- An exact result that is a binary64 value is not changed by rounding. -/
theorem nearest_of_isMagnitude {x : ℚ} (hx : x ≠ 0) (h : IsMagnitude |x|) :
    nearest x = fin (decide (x < 0)) |x| := by
  unfold nearest
  rw [roundMag_of_isMagnitude (abs_pos.mpr hx) h]

/-- A finite result of rounding is a binary64 value with the sign of the exact result;
its error is at most `2 ^ -53` times the exact result, and at most `2 ^ -1075` when the
exact result is below `2 ^ -1022`. -/
theorem nearest_error {x : ℚ} (hx : x ≠ 0) {s : Bool} {v : ℚ} (h : nearest x = fin s v) :
    s = decide (x < 0) ∧ IsMagnitude v ∧
      |toRat (fin s v) - x| ≤ (2 : ℚ) ^ (-53 : Int) * max |x| ((2 : ℚ) ^ (-1022 : Int)) := by
  have h2 : (2 : ℚ) ≠ 0 := by norm_num
  unfold nearest at h
  cases hr : roundMag |x| with
  | none => simp [hr] at h
  | some w =>
    simp only [hr, fin.injEq] at h
    obtain ⟨hs, hw⟩ := h
    subst hw
    have hpos := abs_pos.mpr hx
    obtain ⟨m, e, hlow, -, -, -, -, herr, -, hge⟩ := roundMag_spec hpos hr
    refine ⟨hs.symm, isMagnitude_of_roundMag hpos hr, ?_⟩
    have habs : |toRat (fin s w) - x| = abs (w - abs x) := by
      rw [← hs]
      unfold toRat
      by_cases hneg : x < 0
      · simp only [hneg, decide_True, if_true, abs_of_neg hneg]
        rw [← abs_neg]
        congr 1
        ring
      · simp only [hneg, decide_False, Bool.false_eq_true, if_false,
          abs_of_nonneg (not_lt.mp hneg)]
    rw [habs]
    refine le_trans herr ?_
    have hsplit : (2 : ℚ) ^ (e - 53) = (2 : ℚ) ^ (-53 : Int) * (2 : ℚ) ^ e := by
      rw [← zpow_add₀ h2]
      congr 1
      ring
    rw [hsplit]
    refine mul_le_mul_of_nonneg_left ?_ (zpow_pos (by norm_num) _).le
    rcases lt_or_eq_of_le hlow with hgt | heq
    · exact le_trans (hge hgt) (le_max_left _ _)
    · rw [← heq]
      exact le_max_right _ _

/-- The sum of two finite values is exact when the exact sum is a binary64 value. -/
theorem add_exact {a b : Double} (ha : a.isFinite = true) (hb : b.isFinite = true)
    (h : IsMagnitude |a.toRat + b.toRat|) :
    (a + b).isFinite = true ∧ (a + b).toRat = a.toRat + b.toRat := by
  cases a with
  | nan s => simp [isFinite] at ha
  | inf s => simp [isFinite] at ha
  | fin s x =>
    cases b with
    | nan t => simp [isFinite] at hb
    | inf t => simp [isFinite] at hb
    | fin t y =>
      simp only [add_def, add]
      split_ifs with h0
      · exact ⟨rfl, by rw [h0]; simp [toRat]⟩
      · rw [nearest_of_isMagnitude h0 h]
        exact ⟨rfl, toRat_fin_abs _⟩

/-- The difference of two finite values is exact when the exact difference is a binary64
value. -/
theorem sub_exact {a b : Double} (ha : a.isFinite = true) (hb : b.isFinite = true)
    (h : IsMagnitude |a.toRat - b.toRat|) :
    (a - b).isFinite = true ∧ (a - b).toRat = a.toRat - b.toRat := by
  cases a with
  | nan s => simp [isFinite] at ha
  | inf s => simp [isFinite] at ha
  | fin s x =>
    cases b with
    | nan t => simp [isFinite] at hb
    | inf t => simp [isFinite] at hb
    | fin t y =>
      rw [sub_eq_add_neg] at h ⊢
      simp only [sub_def, sub, neg, add, toRat_neg_fin]
      split_ifs with h0
      · exact ⟨rfl, by rw [h0]; simp [toRat]⟩
      · rw [nearest_of_isMagnitude h0 h]
        exact ⟨rfl, toRat_fin_abs _⟩

end Double

/-! ## Pointers returned by `searchAccount` -/

theorem searchIn_some {l : List BankAccount} {n : Int} {i : Nat} (h : searchIn l n = some i) :
    ∃ a, l[i]? = some a ∧ a.accountNumber = n := by
  induction l generalizing i with
  | nil => simp [searchIn] at h
  | cons x rest ih =>
    unfold searchIn at h
    split_ifs at h with hx
    · cases h
      exact ⟨x, by simp, hx⟩
    · cases hr : searchIn rest n with
      | none => simp [hr] at h
      | some j =>
        simp [hr] at h
        subst h
        obtain ⟨a, ha, hn⟩ := ih hr
        exact ⟨a, by simpa using ha, hn⟩

theorem searchIn_eq_none {l : List BankAccount} {n : Int} :
    searchIn l n = none ↔ ∀ a ∈ l, a.accountNumber ≠ n := by
  induction l with
  | nil => simp [searchIn]
  | cons x rest ih =>
    unfold searchIn
    split_ifs with hx
    · simp [hx]
    · simp [hx, ih]

theorem searchIn_congr {l l' : List BankAccount} (n : Int)
    (h : l'.map (·.accountNumber) = l.map (·.accountNumber)) :
    searchIn l' n = searchIn l n := by
  induction l generalizing l' with
  | nil => cases l' <;> simp_all
  | cons x rest ih =>
    cases l' with
    | nil => simp at h
    | cons y rest' =>
      simp only [List.map_cons, List.cons.injEq] at h
      unfold searchIn
      rw [h.1, ih h.2]

namespace Bank

theorem deref_of_getElem {b : Bank} {i : Nat} {a : BankAccount} (h : b.accounts[i]? = some a) :
    b.deref i = a := by
  simp [deref, List.getD, h]

theorem store_deref {b : Bank} {i : Nat} {a : BankAccount} (h : b.accounts[i]? = some a) :
    b.store i a = b := by
  cases b with
  | mk accs nxt =>
    simp only [store, Bank.mk.injEq, and_true]
    simp only at h
    induction accs generalizing i with
    | nil => simp
    | cons x rest ih =>
      cases i with
      | zero => simp at h; simp [h]
      | succ k => simp at h; simp [ih h]

end Bank

/-! ## Withdrawal from an account -/

/-- C3 (as stated, with the balance after a successful withdrawal being the old balance
minus the amount): on the account (1000, Alice, 10000000000000000.00, 4321) the
withdrawal of 1.00 with PIN 4321 returns `true`, and the balance afterwards is still
10000000000000000, not 9999999999999999. -/
theorem withdraw_counterexample :
    ((⟨1000, "Alice".toList, Double.ofRat (10 ^ 16), 4321⟩ : BankAccount).withdraw
        (Double.ofRat 1) 4321).2.1 = true ∧
    ((⟨1000, "Alice".toList, Double.ofRat (10 ^ 16), 4321⟩ : BankAccount).withdraw
        (Double.ofRat 1) 4321).1.balance = Double.ofRat (10 ^ 16) ∧
    (Double.ofRat (10 ^ 16)).toRat = 10 ^ 16 ∧ (Double.ofRat 1).toRat = 1 ∧
    (((⟨1000, "Alice".toList, Double.ofRat (10 ^ 16), 4321⟩ : BankAccount).withdraw
        (Double.ofRat 1) 4321).1.balance).toRat ≠
      (Double.ofRat (10 ^ 16)).toRat - (Double.ofRat 1).toRat := by
  decide!

/-- C3 (amended). `withdraw(amount, candidatePin)`: a PIN different from the account's is
refused with the account untouched; with the right PIN an amount with
`0 < amount ≤ balance` is paid out, `true` is returned and the balance becomes the
`double` difference `balance - amount`, which for finite operands with a nonzero exact
difference is that difference rounded to the nearest `double`, and is the exact
difference when that is a `double`; with the right PIN any other amount is refused with
the account untouched. -/
theorem withdraw_spec (a : BankAccount) (amount : Double) (candidatePin : Int) :
    (candidatePin ≠ a.pin →
      a.withdraw amount candidatePin = (a, false, ["Incorrect PIN!  Transaction denied.\n"])) ∧
    (candidatePin = a.pin → 0 < amount → amount ≤ a.balance →
      (a.withdraw amount candidatePin).2.1 = true ∧
      (a.withdraw amount candidatePin).1.balance = a.balance - amount ∧
      (a.withdraw amount candidatePin).1 = { a with balance := a.balance - amount } ∧
      (a.balance.isFinite = true → amount.isFinite = true →
        a.balance.toRat - amount.toRat ≠ 0 →
        (a.withdraw amount candidatePin).1.balance =
          Double.nearest (a.balance.toRat - amount.toRat)) ∧
      (a.balance.isFinite = true → amount.isFinite = true →
        Double.IsMagnitude |a.balance.toRat - amount.toRat| →
        (a.withdraw amount candidatePin).1.balance.toRat =
          a.balance.toRat - amount.toRat)) ∧
    (candidatePin = a.pin → (amount ≤ 0 ∨ a.balance < amount) →
      a.withdraw amount candidatePin =
        (a, false, ["Insufficient balance or invalid amount!\n"])) := by
  refine ⟨fun hp => ?_, fun hp h0 hb => ?_, fun hp hbad => ?_⟩
  · simp [BankAccount.withdraw, BankAccount.verifyPin, hp]
  · have hw : a.withdraw amount candidatePin =
        ({ a with balance := a.balance - amount }, true, ["Withdrawal successful!\n"]) := by
      simp [BankAccount.withdraw, BankAccount.verifyPin, hp, h0, hb]
    rw [hw]
    exact ⟨rfl, rfl, rfl, fun hf hg hne => Double.sub_eq_nearest hf hg hne,
      fun hf hg hrep => (Double.sub_exact hf hg hrep).2⟩
  · have : ¬ (0 < amount ∧ amount ≤ a.balance) := by
      rw [Double.not_guard_iff]
      rcases hbad with h | h
      · exact Or.inl h
      · exact Or.inr (Or.inl h)
    simp [BankAccount.withdraw, BankAccount.verifyPin, hp, this]

/-- Scenarios S2 and S3 for C3: on the account (1000, Alice, 150.00, 4321) a withdrawal
of 20.00 with PIN 0000 is refused, with PIN 4321 it leaves 130.00; on the account with
130.00 a withdrawal of 500.00 is refused. -/
theorem withdraw_spec_witness :
    (⟨1000, "Alice".toList, Double.ofRat 150, 4321⟩ : BankAccount).withdraw (Double.ofRat 20) 0 =
      (⟨1000, "Alice".toList, Double.ofRat 150, 4321⟩, false,
        ["Incorrect PIN!  Transaction denied.\n"]) ∧
    ((⟨1000, "Alice".toList, Double.ofRat 150, 4321⟩ : BankAccount).withdraw (Double.ofRat 20)
      4321).1.balance = Double.ofRat 130 ∧
    (⟨1000, "Alice".toList, Double.ofRat 130, 4321⟩ : BankAccount).withdraw (Double.ofRat 500)
        4321 =
      (⟨1000, "Alice".toList, Double.ofRat 130, 4321⟩, false,
        ["Insufficient balance or invalid amount!\n"]) :=
  ⟨(withdraw_spec ⟨1000, "Alice".toList, Double.ofRat 150, 4321⟩ (Double.ofRat 20) 0).1
      (by decide),
   (((withdraw_spec ⟨1000, "Alice".toList, Double.ofRat 150, 4321⟩ (Double.ofRat 20) 4321).2.1
      rfl (by decide!) (by decide!)).2.1).trans (by decide!),
   (withdraw_spec ⟨1000, "Alice".toList, Double.ofRat 130, 4321⟩ (Double.ofRat 500) 4321).2.2
      rfl (Or.inr (by decide!))⟩

/-! ## Frame of the registry operations -/

open Bank

theorem set_map_of_eq {β : Type} (f : BankAccount → β) {l : List BankAccount} {i : Nat}
    {a a' : BankAccount} (h : l[i]? = some a) (hf : f a' = f a) :
    (l.set i a').map f = l.map f := by
  induction l generalizing i with
  | nil => simp
  | cons x rest ih =>
    cases i with
    | zero => simp at h; simp [h, hf]
    | succ k => simp at h; simp [ih h]


theorem sum_balance_set {l : List BankAccount} {i : Nat} {a a' : BankAccount}
    (h : l[i]? = some a) :
    ((l.set i a').map (·.balance.toRat)).sum =
      (l.map (·.balance.toRat)).sum - a.balance.toRat + a'.balance.toRat := by
  induction l generalizing i with
  | nil => simp at h
  | cons x rest ih =>
    cases i with
    | zero => simp at h; simp [h]; ring
    | succ k =>
      simp at h
      simp only [List.set_cons_succ, List.map_cons, List.sum_cons, ih h]
      ring

namespace BankAccount

theorem deposit_ident (a : BankAccount) (amount : Double) :
    (a.deposit amount).1.ident = a.ident := by
  unfold deposit; split_ifs <;> rfl

theorem withdraw_ident (a : BankAccount) (amount : Double) (enteredPin : Int) :
    (a.withdraw amount enteredPin).1.ident = a.ident := by
  unfold withdraw; split_ifs <;> rfl

theorem accountNumber_eq_of_ident {a a' : BankAccount} (h : a'.ident = a.ident) :
    a'.accountNumber = a.accountNumber := by
  simp only [ident, Prod.mk.injEq] at h
  exact h.1

end BankAccount

namespace Bank

theorem searchAccount_get {b : Bank} {n : Int} {i : Nat} (h : b.searchAccount n = some i) :
    b.accounts[i]? = some (b.deref i) ∧ (b.deref i).accountNumber = n := by
  obtain ⟨a, ha, hn⟩ := searchIn_some h
  rw [deref_of_getElem ha]
  exact ⟨ha, hn⟩

theorem store_getElem_ne (b : Bank) {i k : Nat} (a : BankAccount) (h : k ≠ i) :
    (b.store i a).accounts[k]? = b.accounts[k]? := by
  simp [store, List.getElem?_set, Ne.symm h]

theorem store_getElem_self {b : Bank} {i : Nat} {a : BankAccount} (a' : BankAccount)
    (h : b.accounts[i]? = some a) : (b.store i a').accounts[i]? = some a' := by
  have hi : i < b.accounts.length := by
    by_contra hc
    rw [List.getElem?_eq_none (not_lt.mp hc)] at h
    cases h
  simp [store, List.getElem?_set, hi]

theorem store_ident {b : Bank} {i : Nat} {a a' : BankAccount} (h : b.accounts[i]? = some a)
    (hid : a'.ident = a.ident) :
    (b.store i a').accounts.map (·.ident) = b.accounts.map (·.ident) :=
  set_map_of_eq (·.ident) h hid

theorem store_searchAccount {b : Bank} {i : Nat} {a a' : BankAccount}
    (h : b.accounts[i]? = some a) (hid : a'.ident = a.ident) (n : Int) :
    (b.store i a').searchAccount n = b.searchAccount n :=
  searchIn_congr n (set_map_of_eq (·.accountNumber) h (BankAccount.accountNumber_eq_of_ident hid))


theorem store_totalBalance {b : Bank} {i : Nat} {a : BankAccount} (a' : BankAccount)
    (h : b.accounts[i]? = some a) :
    (b.store i a').totalBalance = b.totalBalance - a.balance.toRat + a'.balance.toRat :=
  sum_balance_set h

/-- What a change of the stored accounts may not touch. -/
theorem framed_store {b : Bank} {i : Nat} {a a' : BankAccount} (h : b.accounts[i]? = some a)
    (hid : a'.ident = a.ident) : Framed b (b.store i a') :=
  ⟨rfl, store_ident h hid⟩

theorem framed_refl (b : Bank) : Framed b b := ⟨rfl, rfl⟩

theorem framed_trans {b b1 b2 : Bank} (h1 : Framed b b1) (h2 : Framed b1 b2) : Framed b b2 :=
  ⟨h2.1.trans h1.1, h2.2.trans h1.2⟩

theorem framed_depositToAccount (b : Bank) (n : Int) (amount : Double) :
    Framed b (b.depositToAccount n amount).1 := by
  unfold depositToAccount
  cases h : b.searchAccount n with
  | none => exact framed_refl b
  | some i => exact framed_store (searchAccount_get h).1 (BankAccount.deposit_ident _ _)

theorem framed_withdrawFromAccount (b : Bank) (n : Int) (amount : Double) (pin : Int) :
    Framed b (b.withdrawFromAccount n amount pin).1 := by
  unfold withdrawFromAccount
  cases h : b.searchAccount n with
  | none => exact framed_refl b
  | some i => exact framed_store (searchAccount_get h).1 (BankAccount.withdraw_ident _ _ _)

theorem framed_transferFunds (b : Bank) (f t : Int) (amount : Double) (pin : Int) :
    Framed b (b.transferFunds f t amount pin).1 := by
  unfold transferFunds
  cases hf : b.searchAccount f with
  | none => exact framed_refl b
  | some i =>
    cases ht : b.searchAccount t with
    | none => exact framed_refl b
    | some j =>
      have h1 : Framed b (b.store i ((b.deref i).withdraw amount pin).1) :=
        framed_store (searchAccount_get hf).1 (BankAccount.withdraw_ident _ _ _)
      have hj : (b.store i ((b.deref i).withdraw amount pin).1).searchAccount t = some j := by
        rw [store_searchAccount (searchAccount_get hf).1 (BankAccount.withdraw_ident _ _ _)]
        exact ht
      simp only []
      split_ifs
      · exact framed_trans h1
          (framed_store (searchAccount_get hj).1 (BankAccount.deposit_ident _ _))
      · exact h1
      · exact framed_refl b

end Bank

/-! ## Deposit and transfer -/

namespace Bank

theorem balanceOf_eq_some {b : Bank} {n : Int} {i : Nat} (h : b.searchAccount n = some i) :
    b.balanceOf n = some (b.deref i).balance := by
  simp [balanceOf, h]

theorem balanceOf_store_self {b : Bank} {n : Int} {i : Nat} {a' : BankAccount}
    (h : b.searchAccount n = some i) (hid : a'.ident = (b.deref i).ident) :
    (b.store i a').balanceOf n = some a'.balance := by
  have hs : (b.store i a').searchAccount n = some i := by
    rw [store_searchAccount (searchAccount_get h).1 hid]; exact h
  rw [balanceOf_eq_some hs, deref_of_getElem (store_getElem_self a' (searchAccount_get h).1)]

theorem balanceOf_store_ne {b : Bank} {n : Int} {i k : Nat} {a' : BankAccount}
    (h : b.searchAccount n = some k) (hik : k ≠ i)
    (hi : b.accounts[i]? = some (b.deref i)) (hid : a'.ident = (b.deref i).ident) :
    (b.store i a').balanceOf n = b.balanceOf n := by
  have hs : (b.store i a').searchAccount n = some k := by
    rw [store_searchAccount hi hid]; exact h
  rw [balanceOf_eq_some hs, balanceOf_eq_some h]
  have : (b.store i a').accounts[k]? = some (b.deref k) := by
    rw [store_getElem_ne b a' hik]; exact (searchAccount_get h).1
  rw [deref_of_getElem this]

end Bank

/-! ## Deposit and transfer -/

/-- C8 (as stated, with the balance after a deposit being the old balance plus the
amount): on the registry holding (1000, Alice, 9007199254740992.00, 4321) the call
`depositToAccount(1000, 1.00)` prints "Deposit successful!", and the balance afterwards
is still 9007199254740992, not 9007199254740993. -/
theorem depositToAccount_counterexample :
    ((⟨[⟨1000, "Alice".toList, Double.ofRat (2 ^ 53), 4321⟩], 1001⟩ : Bank).depositToAccount
        1000 (Double.ofRat 1)).2 = ["Deposit successful!\n"] ∧
    ((⟨[⟨1000, "Alice".toList, Double.ofRat (2 ^ 53), 4321⟩], 1001⟩ : Bank).depositToAccount
        1000 (Double.ofRat 1)).1.balanceOf 1000 = some (Double.ofRat (2 ^ 53)) ∧
    (Double.ofRat (2 ^ 53)).toRat = 9007199254740992 ∧ (Double.ofRat 1).toRat = 1 := by
  decide!

/-- C8 (amended). `depositToAccount(number, amount)`: when no account has the number the
registry is unchanged and "Account not found!" is printed; when the number resolves and
`amount > 0` that account's balance becomes the `double` sum of the old balance and
`amount`, which for finite operands is the exact sum rounded to the nearest `double`,
and is the exact sum when that is a `double`; when the number resolves and
`amount <= 0` the registry is unchanged.  No PIN is an input. -/
theorem depositToAccount_spec (b : Bank) (accountNumber : Int) (amount : Double) :
    ((∀ a ∈ b.accounts, a.accountNumber ≠ accountNumber) →
      b.depositToAccount accountNumber amount = (b, ["Account not found!\n"])) ∧
    (∀ old, b.balanceOf accountNumber = some old → 0 < amount →
      (b.depositToAccount accountNumber amount).1.balanceOf accountNumber =
        some (old + amount) ∧
      (old.isFinite = true → amount.isFinite = true → old.toRat + amount.toRat ≠ 0 →
        (b.depositToAccount accountNumber amount).1.balanceOf accountNumber =
          some (Double.nearest (old.toRat + amount.toRat))) ∧
      (old.isFinite = true → amount.isFinite = true →
        Double.IsMagnitude |old.toRat + amount.toRat| →
        (old + amount).toRat = old.toRat + amount.toRat)) ∧
    (∀ old, b.balanceOf accountNumber = some old → amount ≤ 0 →
      b.depositToAccount accountNumber amount = (b, ["Invalid deposit amount!\n"])) := by
  refine ⟨fun h => ?_, fun old hold hpos => ?_, fun old hold hneg => ?_⟩
  · have hn : b.searchAccount accountNumber = none := searchIn_eq_none.mpr h
    simp [depositToAccount, hn]
  · cases hs : b.searchAccount accountNumber with
    | none => simp [balanceOf, hs] at hold
    | some i =>
      rw [balanceOf_eq_some hs] at hold
      cases hold
      have hres : (b.depositToAccount accountNumber amount).1.balanceOf accountNumber =
          some ((b.deref i).balance + amount) := by
        simp only [depositToAccount, hs]
        rw [balanceOf_store_self hs (BankAccount.deposit_ident _ _)]
        simp [BankAccount.deposit, hpos]
      refine ⟨hres, fun hf hg hne => ?_, fun hf hg hrep => (Double.add_exact hf hg hrep).2⟩
      rw [hres, Double.add_eq_nearest hf hg hne]
  · cases hs : b.searchAccount accountNumber with
    | none => simp [balanceOf, hs] at hold
    | some i =>
      have hd : (b.deref i).deposit amount = (b.deref i, ["Invalid deposit amount!\n"]) := by
        simp [BankAccount.deposit, Double.not_pos_of_le_zero hneg]
      simp only [depositToAccount, hs, hd]
      rw [store_deref (searchAccount_get hs).1]

/-- Scenario S1 for C8: `Deposit(1000, 50.00)` on the registry holding
(1000, Alice, 100.00, 4321) takes the balance from 100.00 to 150.00. -/
theorem depositToAccount_spec_witness :
    ((⟨[⟨1000, "Alice".toList, Double.ofRat 100, 4321⟩], 1001⟩ : Bank).depositToAccount 1000
      (Double.ofRat 50)).1.balanceOf 1000 = some (Double.ofRat 150) :=
  ((depositToAccount_spec ⟨[⟨1000, "Alice".toList, Double.ofRat 100, 4321⟩], 1001⟩ 1000
    (Double.ofRat 50)).2.1 (Double.ofRat 100) (by decide!) (by decide!)).1.trans (by decide!)

/-- C1. A `transferFunds` call that does not report success leaves the whole registry as
it was, so the balances of source, destination and every other account are their
pre-call values; and the call does not report success exactly when an account number is
not found, the PIN differs from the source account's, `amount <= 0`, or `amount`
exceeds the source balance (or one of the two compared values is a NaN, which compares
false with everything). -/
theorem transferFunds_failure (b : Bank) (fromAccount toAccount : Int) (amount : Double)
    (enteredPin : Int) :
    (transferSucceeded (b.transferFunds fromAccount toAccount amount enteredPin) = false →
      (b.transferFunds fromAccount toAccount amount enteredPin).1 = b) ∧
    ((b.searchAccount fromAccount = none ∨ b.searchAccount toAccount = none ∨
        ∃ src, b.searchAccount fromAccount = some src ∧
          (enteredPin ≠ (b.deref src).pin ∨ amount ≤ 0 ∨ (b.deref src).balance < amount ∨
            amount.isNaN = true ∨ (b.deref src).balance.isNaN = true)) ↔
      transferSucceeded (b.transferFunds fromAccount toAccount amount enteredPin) = false) := by
  cases hf : b.searchAccount fromAccount with
  | none => simp [transferFunds, hf, transferSucceeded]
  | some i =>
    cases ht : b.searchAccount toAccount with
    | none => simp [transferFunds, hf, ht, transferSucceeded]
    | some j =>
      by_cases hp : enteredPin = (b.deref i).pin
      · subst hp
        by_cases ha : 0 < amount ∧ amount ≤ (b.deref i).balance
        · have hw : (b.deref i).withdraw amount (b.deref i).pin =
              ({ b.deref i with balance := (b.deref i).balance - amount }, true,
                ["Withdrawal successful!\n"]) := by
            simp [BankAccount.withdraw, BankAccount.verifyPin, ha.1, ha.2]
          have hs : transferSucceeded
              (b.transferFunds fromAccount toAccount amount (b.deref i).pin) = true := by
            simp [transferFunds, hf, ht, transferSucceeded, BankAccount.verifyPin, hw]
          have hng := (Double.not_guard_iff amount (b.deref i).balance).not.mp (not_not.mpr ha)
          rw [hs]
          refine ⟨fun h => absurd h (by simp), Iff.intro (fun h => ?_) (fun h => absurd h (by simp))⟩
          rcases h with h | h | ⟨k, hk, h⟩
          · cases h
          · cases h
          · cases hk
            rcases h with h | h
            · exact absurd rfl h
            · exact absurd h hng
        · have hw : (b.deref i).withdraw amount (b.deref i).pin =
              (b.deref i, false, ["Insufficient balance or invalid amount!\n"]) := by
            simp only [BankAccount.withdraw, BankAccount.verifyPin, decide_True,
              Bool.not_true, Bool.false_eq_true, if_false, ha]
          have hr : b.transferFunds fromAccount toAccount amount (b.deref i).pin =
              (b, ["Insufficient balance or invalid amount!\n"]) := by
            simp only [transferFunds, hf, ht, BankAccount.verifyPin, decide_True, if_true,
              hw, Bool.false_eq_true, if_false, store_deref (searchAccount_get hf).1]
          rw [hr]
          refine ⟨fun _ => rfl, fun _ => by simp [transferSucceeded], fun _ => ?_⟩
          exact Or.inr (Or.inr ⟨i, rfl, Or.inr ((Double.not_guard_iff _ _).mp ha)⟩)
      · have hr : b.transferFunds fromAccount toAccount amount enteredPin =
            (b, ["Incorrect PIN! Transfer denied.\n"]) := by
          simp [transferFunds, hf, ht, BankAccount.verifyPin, hp]
        rw [hr]
        exact ⟨fun _ => rfl, fun _ => by simp [transferSucceeded], fun _ => Or.inr (Or.inr ⟨i, rfl, Or.inl hp⟩)⟩

/-- Scenario S4 for C1: `Transfer(1000, 1001, 30.00, 9999)` with the wrong PIN on the
registry with balances (130.00, 0.00) does not succeed and leaves the registry as it
was. -/
theorem transferFunds_failure_witness :
    (registryS4.transferFunds 1000 1001 (Double.ofRat 30) 9999).1 = registryS4 :=
  (transferFunds_failure registryS4 1000 1001 (Double.ofRat 30) 9999).1 (by decide!)

/-- C2 (as stated, with the new balances being the old ones minus and plus `x` and the
sum of all balances unchanged): on the registry holding (1000, Alice, 1.00, 4321) and
(1001, Bob, 9007199254740992.00, 1111) the call `transferFunds(1000, 1001, 1.00)` with
PIN 4321 reports success; afterwards the balance of 1000 is 0 and the balance of 1001 is
still 9007199254740992, and the sum of all balances has dropped from 9007199254740993 to
9007199254740992. -/
theorem transferFunds_counterexample :
    transferSucceeded ((⟨[⟨1000, "Alice".toList, Double.ofRat 1, 4321⟩,
        ⟨1001, "Bob".toList, Double.ofRat (2 ^ 53), 1111⟩], 1002⟩ : Bank).transferFunds
        1000 1001 (Double.ofRat 1) 4321) = true ∧
    ((⟨[⟨1000, "Alice".toList, Double.ofRat 1, 4321⟩,
        ⟨1001, "Bob".toList, Double.ofRat (2 ^ 53), 1111⟩], 1002⟩ : Bank).transferFunds
        1000 1001 (Double.ofRat 1) 4321).1.balanceOf 1000 = some (Double.ofRat 0) ∧
    ((⟨[⟨1000, "Alice".toList, Double.ofRat 1, 4321⟩,
        ⟨1001, "Bob".toList, Double.ofRat (2 ^ 53), 1111⟩], 1002⟩ : Bank).transferFunds
        1000 1001 (Double.ofRat 1) 4321).1.balanceOf 1001 = some (Double.ofRat (2 ^ 53)) ∧
    (Double.ofRat (2 ^ 53)).toRat = 9007199254740992 ∧ (Double.ofRat 1).toRat = 1 ∧
    (⟨[⟨1000, "Alice".toList, Double.ofRat 1, 4321⟩,
        ⟨1001, "Bob".toList, Double.ofRat (2 ^ 53), 1111⟩], 1002⟩ : Bank).totalBalance =
      9007199254740993 ∧
    ((⟨[⟨1000, "Alice".toList, Double.ofRat 1, 4321⟩,
        ⟨1001, "Bob".toList, Double.ofRat (2 ^ 53), 1111⟩], 1002⟩ : Bank).transferFunds
        1000 1001 (Double.ofRat 1) 4321).1.totalBalance = 9007199254740992 := by
  decide!

/-- C2 (amended). A `transferFunds(a, b, x)` with `a ≠ b`, both numbers resolving, the
PIN of the source entered and `0 < x <= balance(a)` reports success; afterwards the
balance found under `a` is the `double` difference of the old one and `x`, the balance
found under `b` is the `double` sum of the old one and `x`, and when neither of the two
results has been rounded, as is the case when the exact difference and the exact sum
are `double` values, the sum of all balances of the registry is what it was. -/
theorem transferFunds_success (b : Bank) (fromAccount toAccount : Int) (amount : Double)
    (enteredPin : Int) (src dst : Nat)
    (hne : fromAccount ≠ toAccount)
    (hfrom : b.searchAccount fromAccount = some src)
    (hto : b.searchAccount toAccount = some dst)
    (hpin : enteredPin = (b.deref src).pin)
    (hpos : 0 < amount) (hle : amount ≤ (b.deref src).balance) :
    transferSucceeded (b.transferFunds fromAccount toAccount amount enteredPin) = true ∧
    (b.transferFunds fromAccount toAccount amount enteredPin).1.balanceOf fromAccount =
      some ((b.deref src).balance - amount) ∧
    (b.transferFunds fromAccount toAccount amount enteredPin).1.balanceOf toAccount =
      some ((b.deref dst).balance + amount) ∧
    (((b.deref src).balance - amount).toRat = (b.deref src).balance.toRat - amount.toRat →
      ((b.deref dst).balance + amount).toRat = (b.deref dst).balance.toRat + amount.toRat →
      (b.transferFunds fromAccount toAccount amount enteredPin).1.totalBalance =
        b.totalBalance) ∧
    ((b.deref src).balance.isFinite = true → (b.deref dst).balance.isFinite = true →
      amount.isFinite = true →
      Double.IsMagnitude |(b.deref src).balance.toRat - amount.toRat| →
      Double.IsMagnitude |(b.deref dst).balance.toRat + amount.toRat| →
      (b.transferFunds fromAccount toAccount amount enteredPin).1.totalBalance =
        b.totalBalance) := by
  subst hpin
  have hsd : src ≠ dst := by
    intro h
    subst h
    exact hne ((searchAccount_get hfrom).2.symm.trans (searchAccount_get hto).2)
  have hw : (b.deref src).withdraw amount (b.deref src).pin =
      ({ b.deref src with balance := (b.deref src).balance - amount }, true,
        ["Withdrawal successful!\n"]) := by
    simp [BankAccount.withdraw, BankAccount.verifyPin, hpos, hle]
  have hgs := (searchAccount_get hfrom).1
  have hgd := (searchAccount_get hto).1
  have hid1 : ({ b.deref src with balance := (b.deref src).balance - amount } :
      BankAccount).ident = (b.deref src).ident := rfl
  have hgd1 : (b.store src
      { b.deref src with balance := (b.deref src).balance - amount }).accounts[dst]? =
      some (b.deref dst) := by
    rw [store_getElem_ne b _ (Ne.symm hsd)]; exact hgd
  have hd1 : (b.store src
      { b.deref src with balance := (b.deref src).balance - amount }).deref dst =
      b.deref dst := deref_of_getElem hgd1
  have hdep : (b.deref dst).deposit amount =
      ({ b.deref dst with balance := (b.deref dst).balance + amount },
        ["Deposit successful!\n"]) := by
    simp [BankAccount.deposit, hpos]
  have hid2 : ({ b.deref dst with balance := (b.deref dst).balance + amount } :
      BankAccount).ident = (b.deref dst).ident := rfl
  have hr : b.transferFunds fromAccount toAccount amount (b.deref src).pin =
      ((b.store src { b.deref src with balance := (b.deref src).balance - amount }).store dst
          { b.deref dst with balance := (b.deref dst).balance + amount },
        ["Withdrawal successful!\n", "Deposit successful!\n", "Transfer successful!\n"]) := by
    simp [transferFunds, hfrom, hto, BankAccount.verifyPin, hw, hd1, hdep]
  rw [hr]
  have hfrom1 : (b.store src
      { b.deref src with balance := (b.deref src).balance - amount }).searchAccount fromAccount
      = some src := by
    rw [store_searchAccount hgs hid1]; exact hfrom
  have hto1 : (b.store src
      { b.deref src with balance := (b.deref src).balance - amount }).searchAccount toAccount
      = some dst := by
    rw [store_searchAccount hgs hid1]; exact hto
  have htot : ((b.deref src).balance - amount).toRat =
        (b.deref src).balance.toRat - amount.toRat →
      ((b.deref dst).balance + amount).toRat = (b.deref dst).balance.toRat + amount.toRat →
      ((b.store src { b.deref src with balance := (b.deref src).balance - amount }).store dst
          { b.deref dst with balance := (b.deref dst).balance + amount }).totalBalance =
        b.totalBalance := by
    intro hx1 hx2
    rw [store_totalBalance _ hgd1, store_totalBalance _ hgs]
    simp only
    rw [hx1, hx2]
    ring
  refine ⟨by simp [transferSucceeded], ?_, ?_, htot, fun hf1 hf2 hf3 hr1 hr2 =>
    htot (Double.sub_exact hf1 hf3 hr1).2 (Double.add_exact hf2 hf3 hr2).2⟩
  · have hgd1' := (searchAccount_get hto1).1
    rw [balanceOf_store_ne hfrom1 hsd hgd1' (by rw [hd1]; exact hid2)]
    exact balanceOf_store_self hfrom hid1
  · exact balanceOf_store_self hto1 (by rw [hd1]; exact hid2)

/-- Scenario S5 for C2: `Transfer(1000, 1001, 30.00, 4321)` takes the balances
(130.00, 0.00) to (100.00, 30.00), the total staying 130.00. -/
theorem transferFunds_success_witness :
    (registryS4.transferFunds 1000 1001 (Double.ofRat 30) 4321).1.balanceOf 1000 =
      some (Double.ofRat 100) ∧
    (registryS4.transferFunds 1000 1001 (Double.ofRat 30) 4321).1.balanceOf 1001 =
      some (Double.ofRat 30) ∧
    (registryS4.transferFunds 1000 1001 (Double.ofRat 30) 4321).1.totalBalance = 130 := by
  have h := (transferFunds_success registryS4 1000 1001 (Double.ofRat 30) 4321 0 1 (by decide)
    (by decide) (by decide) (by decide) (by decide!) (by decide!)).2
  have e1 : (registryS4.deref 0).balance - Double.ofRat 30 = Double.ofRat 100 := by decide!
  have e2 : (registryS4.deref 1).balance + Double.ofRat 30 = Double.ofRat 30 := by decide!
  have e3 : registryS4.totalBalance = 130 := by decide!
  rw [e1, e2] at h
  exact ⟨h.1, h.2.1, (h.2.2.1 (by decide!) (by decide!)).trans e3⟩

/-- C10. `depositToAccount`, `withdrawFromAccount` and `transferFunds`, with any
arguments and whatever their outcome, keep `nextAccountNumber` and the sequence of
(number, name, PIN) of the accounts, and change no account other than the ones the
account numbers of the call resolve to. -/
theorem operations_frame (b : Bank) (n m : Int) (amount : Double) (enteredPin : Int) :
    (Framed b (b.depositToAccount n amount).1 ∧
      ∀ k, b.searchAccount n ≠ some k →
        (b.depositToAccount n amount).1.accounts[k]? = b.accounts[k]?) ∧
    (Framed b (b.withdrawFromAccount n amount enteredPin).1 ∧
      ∀ k, b.searchAccount n ≠ some k →
        (b.withdrawFromAccount n amount enteredPin).1.accounts[k]? = b.accounts[k]?) ∧
    (Framed b (b.transferFunds n m amount enteredPin).1 ∧
      ∀ k, b.searchAccount n ≠ some k → b.searchAccount m ≠ some k →
        (b.transferFunds n m amount enteredPin).1.accounts[k]? = b.accounts[k]?) := by
  refine ⟨⟨framed_depositToAccount b n amount, fun k hk => ?_⟩,
    ⟨framed_withdrawFromAccount b n amount enteredPin, fun k hk => ?_⟩,
    ⟨framed_transferFunds b n m amount enteredPin, fun k hk hk2 => ?_⟩⟩
  · unfold depositToAccount
    cases h : b.searchAccount n with
    | none => rfl
    | some i =>
      have hki : k ≠ i := fun e => hk (by rw [h, e])
      exact store_getElem_ne b _ hki
  · unfold withdrawFromAccount
    cases h : b.searchAccount n with
    | none => rfl
    | some i =>
      have hki : k ≠ i := fun e => hk (by rw [h, e])
      exact store_getElem_ne b _ hki
  · unfold transferFunds
    cases h : b.searchAccount n with
    | none => rfl
    | some i =>
      cases h2 : b.searchAccount m with
      | none => rfl
      | some j =>
        have hki : k ≠ i := fun e => hk (by rw [h, e])
        have hkj : k ≠ j := fun e => hk2 (by rw [h2, e])
        simp only []
        split_ifs
        · rw [store_getElem_ne _ _ hkj, store_getElem_ne _ _ hki]
        · exact store_getElem_ne b _ hki
        · rfl


/-- An instance of C10: a transfer between the first two of three accounts leaves the
third account, the identities of all three and the next account number as they were. -/
theorem operations_frame_witness :
    ((⟨[⟨1000, "Alice".toList, Double.ofRat 130, 4321⟩, ⟨1001, "Bob".toList, Double.ofRat 0, 1111⟩,
        ⟨1002, "Carol".toList, Double.ofRat 7, 2222⟩], 1003⟩ : Bank).transferFunds 1000 1001
          (Double.ofRat 30) 4321).1.accounts[2]?
      = (⟨[⟨1000, "Alice".toList, Double.ofRat 130, 4321⟩, ⟨1001, "Bob".toList, Double.ofRat 0, 1111⟩,
        ⟨1002, "Carol".toList, Double.ofRat 7, 2222⟩], 1003⟩ : Bank).accounts[2]? :=
  (operations_frame ⟨[⟨1000, "Alice".toList, Double.ofRat 130, 4321⟩,
      ⟨1001, "Bob".toList, Double.ofRat 0, 1111⟩,
      ⟨1002, "Carol".toList, Double.ofRat 7, 2222⟩], 1003⟩ 1000 1001 (Double.ofRat 30) 4321).2.2.2 2
    (by decide) (by decide)

/-! ## Account creation -/

namespace Bank

theorem readPin_append {rejected : List Int} (pin : Int) (later : List Int)
    (hrej : ∀ p ∈ rejected, p < 1000 ∨ 9999 < p) (hpin : 1000 ≤ pin ∧ pin ≤ 9999) :
    readPin (rejected ++ pin :: later) = some (rejected, pin) := by
  induction rejected with
  | nil =>
    have : ¬ (pin < 1000 ∨ pin > 9999) := by omega
    simp [readPin, this]
  | cons p ps ih =>
    have hp : p < 1000 ∨ p > 9999 := hrej p (List.mem_cons_self _ _)
    have := ih (fun q hq => hrej q (List.mem_cons_of_mem _ hq))
    simp [readPin, hp, this]

theorem readPin_range {inputs rejected : List Int} {pin : Int}
    (h : readPin inputs = some (rejected, pin)) : 1000 ≤ pin ∧ pin ≤ 9999 := by
  induction inputs generalizing rejected with
  | nil => simp [readPin] at h
  | cons p ps ih =>
    unfold readPin at h
    split_ifs at h with hp
    · cases hr : readPin ps with
      | none => simp [hr] at h
      | some r =>
        obtain ⟨rej, q⟩ := r
        simp [hr] at h
        obtain ⟨-, rfl⟩ := h
        exact ih hr
    · simp at h
      obtain ⟨-, rfl⟩ := h
      omega

theorem createAccount_eq_some {b b1 : Bank} {name : List Char} {initialDeposit : Double}
    {pinInputs : List Int} {out : List String}
    (h : b.createAccount name initialDeposit pinInputs = some (b1, out)) :
    ∃ pin, 1000 ≤ pin ∧ pin ≤ 9999 ∧ b.nextAccountNumber < INT_MAX ∧
      b1 = ⟨b.accounts ++ [⟨b.nextAccountNumber, name, initialDeposit, pin⟩],
        b.nextAccountNumber + 1⟩ := by
  unfold createAccount at h
  cases hr : readPin pinInputs with
  | none => simp [hr] at h
  | some r =>
    obtain ⟨rej, pin⟩ := r
    simp only [hr] at h
    split_ifs at h with hov
    simp only [Option.some.injEq, Prod.mk.injEq] at h
    have hrange := readPin_range hr
    exact ⟨pin, hrange.1, hrange.2, by omega, h.1.symm⟩

end Bank

/-- C6 (as stated, without a bound on `nextAccountNumber`): the store file with the one
line `2147483647` loads as the empty registry whose next account number is the largest
`int`; there the PIN 4321 ends the PIN loop, but `nextAccountNumber++` has no `int`
result, so `createAccount` yields no registry with the counter one higher. -/
theorem createAccount_counterexample :
    (Bank.init.loadFromFile (some "2147483647\n".toList)).1 = ⟨[], 2147483647⟩ ∧
      Bank.readPin [4321] = some ([], 4321) ∧
      (⟨[], 2147483647⟩ : Bank).createAccount "Alice".toList (Double.ofRat 100) [4321] = none := by
  decide!

/-- C6 (amended). On a registry with `nextAccountNumber` below the largest `int`,
`createAccount` with a name, an initial deposit, any number of rejected PIN entries and
then a PIN in [1000, 9999] appends exactly one account at the end, with the pre-call
`nextAccountNumber` as its number and the given name, deposit and PIN, and leaves
`nextAccountNumber` one higher. -/
theorem createAccount_spec (b : Bank) (name : List Char) (initialDeposit : Double)
    (rejected : List Int) (pin : Int) (later : List Int)
    (hrej : ∀ p ∈ rejected, p < 1000 ∨ 9999 < p) (hpin : 1000 ≤ pin ∧ pin ≤ 9999)
    (hroom : b.nextAccountNumber < INT_MAX) :
    (b.createAccount name initialDeposit (rejected ++ pin :: later)).map (·.1) =
      some ⟨b.accounts ++ [⟨b.nextAccountNumber, name, initialDeposit, pin⟩],
        b.nextAccountNumber + 1⟩ := by
  have hov : ¬ INT_MAX < b.nextAccountNumber + 1 := by omega
  simp [createAccount, readPin_append pin later hrej hpin, hov]

/-- Scenario S1 for C6: `Create("Alice", 100.00, 4321)` on the empty registry gives the
account number 1000 and leaves `nextAccountNumber = 1001`. -/
theorem createAccount_spec_witness :
    (Bank.init.createAccount "Alice".toList (Double.ofRat 100) [4321]).map (·.1) =
      some ⟨[⟨1000, "Alice".toList, Double.ofRat 100, 4321⟩], 1001⟩ :=
  createAccount_spec Bank.init "Alice".toList (Double.ofRat 100) [] 4321 [] (by simp)
    (by decide) (by decide)

/-! ## Invariants of the menu loop -/

namespace Bank

end Bank

namespace BankAccount

end BankAccount

namespace Bank

theorem numbersOk_of_framed {b b1 : Bank} (hf : Framed b b1) (h : NumbersOk b) :
    NumbersOk b1 := by
  have hnum : b1.accounts.map (·.accountNumber) = b.accounts.map (·.accountNumber) := by
    have := congrArg (List.map Prod.fst) hf.2
    simpa [List.map_map, Function.comp_def, BankAccount.ident] using this
  have hall : ∀ {c : Bank}, (∀ a ∈ c.accounts, a.accountNumber < c.nextAccountNumber) ↔
      ∀ x ∈ c.accounts.map (·.accountNumber), x < c.nextAccountNumber := by
    intro c; simp
  refine ⟨?_, ?_⟩
  · rw [hall, hnum, hf.1]
    exact hall.mp h.1
  · rw [hnum]; exact h.2

theorem numbersOk_step {b b1 : Bank} {op : Op} (h : NumbersOk b)
    (hs : b.step op = some b1) : NumbersOk b1 := by
  cases op with
  | create name dep pins =>
    simp only [step, Option.map_eq_some', Prod.exists, exists_and_right, exists_eq_right] at hs
    obtain ⟨out, hc⟩ := hs
    obtain ⟨pin, -, -, -, rfl⟩ := createAccount_eq_some hc
    refine ⟨?_, ?_⟩
    · intro a ha
      simp only [List.mem_append, List.mem_singleton] at ha
      rcases ha with ha | rfl
      · have := h.1 a ha
        simp only
        omega
      · simp
    · simp only [List.map_append, List.map_cons, List.map_nil]
      refine List.Nodup.append h.2 (List.nodup_singleton _) ?_
      simp only [List.disjoint_singleton, List.mem_map, not_exists, not_and]
      intro a ha he
      have := h.1 a ha
      omega
  | deposit n amount =>
    simp only [step, Option.some.injEq] at hs
    subst hs
    exact numbersOk_of_framed (framed_depositToAccount b n amount.val) h
  | withdraw n amount pin =>
    simp only [step, Option.some.injEq] at hs
    subst hs
    exact numbersOk_of_framed (framed_withdrawFromAccount b n amount.val pin) h
  | transfer f t amount pin =>
    simp only [step, Option.some.injEq] at hs
    subst hs
    exact numbersOk_of_framed (framed_transferFunds b f t amount.val pin) h

theorem numbersOk_run {ops : List Op} {b b1 : Bank} (h : NumbersOk b)
    (hr : b.run ops = some b1) : NumbersOk b1 := by
  induction ops generalizing b with
  | nil =>
    simp only [run, Option.some.injEq] at hr
    subst hr
    exact h
  | cons op rest ih =>
    simp only [run, Option.bind_eq_some] at hr
    obtain ⟨b2, hs, hr2⟩ := hr
    exact ih (numbersOk_step h hs) hr2

theorem creates_cons (op : Op) (ops : List Op) :
    creates (op :: ops) = creates ops + (if op.isCreate then 1 else 0) := by
  simp [creates, List.countP_cons]

theorem creates_replicate (n : Nat) (name : List Char) (dep : Amount) (pins : List Int) :
    creates (List.replicate n (.create name dep pins)) = n := by
  induction n with
  | zero => rfl
  | succ k ih => rw [List.replicate_succ, creates_cons, ih]; rfl

/-- Progress of the menu loop: a sequence of entries whose PIN loops all end is run to
the end from `b` as long as the account numbers stay within `int`, and each create entry
has raised `nextAccountNumber` by one. -/
theorem run_total (ops : List Op) (b : Bank) (hpins : ∀ op ∈ ops, op.PinAccepted)
    (hroom : b.nextAccountNumber + creates ops ≤ INT_MAX) :
    ∃ b1, b.run ops = some b1 ∧ b1.nextAccountNumber = b.nextAccountNumber + creates ops := by
  induction ops generalizing b with
  | nil => exact ⟨b, rfl, by simp [creates]⟩
  | cons op rest ih =>
    have hrest : ∀ o ∈ rest, o.PinAccepted := fun o ho => hpins o (List.mem_cons_of_mem _ ho)
    have hop := hpins op (List.mem_cons_self _ _)
    rw [creates_cons] at hroom ⊢
    cases op with
    | create name dep pins =>
      simp only [Op.PinAccepted, Option.isSome_iff_exists] at hop
      obtain ⟨r, hr⟩ := hop
      simp only [Op.isCreate, if_true, Nat.cast_add, Nat.cast_one] at hroom ⊢
      have hov : ¬ INT_MAX < b.nextAccountNumber + 1 := by omega
      have hs : b.step (.create name dep pins) =
          some ⟨b.accounts ++ [⟨b.nextAccountNumber, name, dep.val, r.2⟩],
            b.nextAccountNumber + 1⟩ := by
        simp [step, createAccount, hr, hov]
      obtain ⟨b1, h1, h2⟩ := ih ⟨b.accounts ++ [⟨b.nextAccountNumber, name, dep.val, r.2⟩],
        b.nextAccountNumber + 1⟩ hrest (by simp only; omega)
      exact ⟨b1, by simp [run, hs, h1], by rw [h2]; simp only; omega⟩
    | deposit n amount =>
      simp only [Op.isCreate, Bool.false_eq_true, if_false, add_zero] at hroom ⊢
      obtain ⟨b1, h1, h2⟩ := ih (b.depositToAccount n amount.val).1 hrest
        (by rw [(framed_depositToAccount b n amount.val).1]; exact hroom)
      exact ⟨b1, by simp [run, step, h1],
        by rw [h2, (framed_depositToAccount b n amount.val).1]⟩
    | withdraw n amount pin =>
      simp only [Op.isCreate, Bool.false_eq_true, if_false, add_zero] at hroom ⊢
      obtain ⟨b1, h1, h2⟩ := ih (b.withdrawFromAccount n amount.val pin).1 hrest
        (by rw [(framed_withdrawFromAccount b n amount.val pin).1]; exact hroom)
      exact ⟨b1, by simp [run, step, h1],
        by rw [h2, (framed_withdrawFromAccount b n amount.val pin).1]⟩
    | transfer f t amount pin =>
      simp only [Op.isCreate, Bool.false_eq_true, if_false, add_zero] at hroom ⊢
      obtain ⟨b1, h1, h2⟩ := ih (b.transferFunds f t amount.val pin).1 hrest
        (by rw [(framed_transferFunds b f t amount.val pin).1]; exact hroom)
      exact ⟨b1, by simp [run, step, h1],
        by rw [h2, (framed_transferFunds b f t amount.val pin).1]⟩

/-- A run of `n` create entries from a registry whose `nextAccountNumber` is within `n`
of the largest `int` has no result: one of the increments leaves the `int` range. -/
theorem run_replicate_create (n : Nat) (b : Bank) (name : List Char) (dep : Amount)
    (pins : List Int)
    (hle : b.nextAccountNumber ≤ INT_MAX) (hn : INT_MAX < b.nextAccountNumber + n) :
    b.run (List.replicate n (.create name dep pins)) = none := by
  induction n generalizing b with
  | zero => simp at hn; omega
  | succ k ih =>
    simp only [List.replicate_succ, run]
    cases hs : b.step (.create name dep pins) with
    | none => rfl
    | some b1 =>
      simp only [Option.some_bind]
      simp only [step, Option.map_eq_some', Prod.exists, exists_and_right, exists_eq_right] at hs
      obtain ⟨out, hc⟩ := hs
      obtain ⟨pin, -, -, hlt, rfl⟩ := createAccount_eq_some hc
      exact ih _ (by simp only; omega) (by simp only; push_cast at hn; omega)

end Bank

/-- The scenarios S1 to S5 run from the empty registry end in the registry of S6. -/
theorem scenarioOps_run : Bank.init.run scenarioOps = some registryS6 := by
  decide!

/-- C7 (as stated, for any sequence of operations): the create entry with the name A,
the deposit 0.00 and the PIN 1000 has a PIN loop that ends; 2147482647 such entries run
from the empty registry leave `nextAccountNumber = 2147483647`, the largest `int`; and
2147482648 such entries reach no registry: the last `nextAccountNumber++` leaves the
`int` range. -/
theorem run_numbersOk_counterexample :
    (Op.create "A".toList (Amount.ofRat 0) [1000]).PinAccepted ∧
      (Bank.init.run (List.replicate 2147482647
        (Op.create "A".toList (Amount.ofRat 0) [1000]))).map (·.nextAccountNumber) =
        some 2147483647 ∧
      Bank.init.run (List.replicate 2147482648 (Op.create "A".toList (Amount.ofRat 0) [1000])) =
        none := by
  have hpin : (Op.create "A".toList (Amount.ofRat 0) [1000]).PinAccepted := by
    simp [Op.PinAccepted, Bank.readPin]
  refine ⟨hpin, ?_, run_replicate_create 2147482648 Bank.init _ _ _ (by decide) (by decide)⟩
  obtain ⟨b, hb, hn⟩ := run_total
    (List.replicate 2147482647 (Op.create "A".toList (Amount.ofRat 0) [1000])) Bank.init
    (fun o ho => by rw [List.eq_of_mem_replicate ho]; exact hpin)
    (by rw [creates_replicate]; decide)
  rw [hb, Option.map_some', hn, creates_replicate]
  rfl

/-- C7 (amended). Every sequence of create, deposit, withdraw and transfer entries with
fewer than 2147482648 create entries, the PIN loop of each ending, runs from the empty
registry (`nextAccountNumber = 1000`) to a registry in which `nextAccountNumber` is 1000
plus the number of create entries, every account number is strictly below
`nextAccountNumber` and no two accounts share a number. -/
theorem run_numbersOk (ops : List Op) (hpins : ∀ op ∈ ops, op.PinAccepted)
    (hbound : creates ops < 2147482648) :
    ∃ b, Bank.init.run ops = some b ∧
      b.nextAccountNumber = 1000 + creates ops ∧
      (∀ a ∈ b.accounts, a.accountNumber < b.nextAccountNumber) ∧
      (b.accounts.map (·.accountNumber)).Nodup := by
  obtain ⟨b, hb, hnext⟩ := run_total ops Bank.init hpins
    (by simp only [Bank.init, INT_MAX]; omega)
  exact ⟨b, hb, hnext,
    numbersOk_run ⟨fun a ha => by simp [Bank.init] at ha, by simp [Bank.init]⟩ hb⟩

/-- Scenarios S1 to S5 for C7: the eight entries hold two creates; the registry they end
in has the distinct account numbers 1000 and 1001, and the number of its second account
is below its `nextAccountNumber` 1002. -/
theorem run_numbersOk_witness :
    (⟨1001, "Bob".toList, Double.ofRat 30, 1111⟩ : BankAccount).accountNumber <
        registryS6.nextAccountNumber ∧
      (registryS6.accounts.map (·.accountNumber)).Nodup := by
  obtain ⟨b, hb, -, h1, h2⟩ := run_numbersOk scenarioOps
    (by
      intro op hop
      simp only [scenarioOps, List.mem_cons, List.mem_singleton, List.not_mem_nil,
        or_false] at hop
      rcases hop with h | h | h | h | h | h | h | h <;> subst h <;>
        simp [Op.PinAccepted, readPin])
    (by decide)
  rw [scenarioOps_run] at hb
  cases hb
  exact ⟨h1 _ (by simp [registryS6]), h2⟩

/-! ## The store file -/

/-- Values of the model of `double`: 0.1 is stored as the nearest binary fraction; at
2^53 the spacing of the values is 2 and a tie goes to the even neighbour; a decimal too
large for a `double` converts to infinity, one too small to zero; the largest finite
value added to itself is infinity, and infinity minus infinity is a NaN. -/
theorem double_samples :
    Double.ofRat (1 / 10) = .fin false (3602879701896397 / 36028797018963968) ∧
    Double.ofRat (2 ^ 53 + 1) = .fin false (2 ^ 53) ∧
    Double.ofRat (2 ^ 53 + 3) = .fin false (2 ^ 53 + 4) ∧
    Double.ofRat (10 ^ 309) = .inf false ∧
    Double.ofRat (1 / 10 ^ 400) = .fin false 0 ∧
    Double.ofRat (1 / 10) + Double.ofRat (2 / 10) ≠ Double.ofRat (3 / 10) ∧
    Double.fin false Double.maxMag + Double.fin false Double.maxMag = .inf false ∧
    Double.inf false - Double.inf false = .nan true := by
  decide!

/-- Text written for some `double` values by `out << x`: six significant digits, the
scientific style outside of 1e-5 to 1e6, and the sign of a negative zero. -/
theorem showDouble_samples :
    showDouble (Double.ofRat 100) = "100".toList ∧
    showDouble (Double.ofRat (1 / 10)) = "0.1".toList ∧
    showDouble (Double.ofRat (10010 / 100)) = "100.1".toList ∧
    showDouble (Double.ofRat (1234567 / 100)) = "12345.7".toList ∧
    showDouble (Double.ofRat 1234567) = "1.23457e+06".toList ∧
    showDouble (Double.ofRat (1 / 100000)) = "1e-05".toList ∧
    showDouble (.fin true 0) = "-0".toList ∧
    showDouble (.inf false) = "inf".toList := by
  decide!

/-- Extraction of a `double` from text: the nearest value is stored; a field too large
for a `double` sets `failbit` and stores the largest finite value; a field that is no
number sets `failbit` and stores zero; `-0` keeps its sign. -/
theorem extractDouble_samples :
    extractDouble (IStream.ofLine "0.1 1111".toList) =
      (⟨" 1111".toList, false, false⟩, some (Double.ofRat (1 / 10))) ∧
    extractDouble (IStream.ofLine "1e999 1111".toList) =
      (⟨" 1111".toList, false, true⟩, some (.fin false Double.maxMag)) ∧
    extractDouble (IStream.ofLine "x 1111".toList) =
      (⟨"x 1111".toList, false, true⟩, some 0) ∧
    extractDouble (IStream.ofLine "-0".toList) = (⟨[], true, false⟩, some (.fin true 0)) := by
  decide!

/-- A line whose balance field is too large for a `double` is no account record; its
leading integer then becomes `nextAccountNumber`. -/
theorem loadLines_range_error :
    parseAccount "1000 Bob 1e999 1111".toList = none ∧
      Bank.init.loadLines ["1000 Bob 1e999 1111".toList] = ⟨[], 1000⟩ := by
  decide!

/-- Scenario S6: the registry holding (1000, Alice, 100.00, 4321) and
(1001, Bob, 30.00, 1111) with next account number 1002 is written as three lines, and
loading them into the empty registry gives the same registry. -/
theorem save_load_scenario :
    (registryS6.saveToFile true).1 = some "1000 Alice 100 4321\n1001 Bob 30 1111\n1002\n".toList ∧
      (Bank.init.loadFromFile (registryS6.saveToFile true).1).1 = registryS6 := by
  decide!

/-- C5 (divergence). `Create("Alice", 12345.67, 4321)` on the empty registry gives the
registry holding (1000, Alice, 12345.67, 4321) with next account number 1001;
`saveToFile` writes its balance with six significant digits, as `12345.7`; loading the
written text into the empty registry gives an account with the balance 12345.7, which is
not the balance saved. -/
theorem save_load_digits :
    Bank.init.run [Op.create "Alice".toList (Amount.ofRat (1234567 / 100)) [4321]] =
      some ⟨[⟨1000, "Alice".toList, Double.ofRat (1234567 / 100), 4321⟩], 1001⟩ ∧
    ((⟨[⟨1000, "Alice".toList, Double.ofRat (1234567 / 100), 4321⟩], 1001⟩ : Bank).saveToFile
      true).1 = some "1000 Alice 12345.7 4321\n1001\n".toList ∧
    (Bank.init.loadFromFile (some "1000 Alice 12345.7 4321\n1001\n".toList)).1 =
      ⟨[⟨1000, "Alice".toList, Double.ofRat (123457 / 10), 4321⟩], 1001⟩ ∧
    Double.ofRat (123457 / 10) ≠ Double.ofRat (1234567 / 100) := by
  decide!

/-- C9 (divergence). The store file whose only line is `abc`, loaded into the empty
registry (`nextAccountNumber = 1000`): the line is no account record and does not read
as an integer, yet `nextAccountNumber` is 0 afterwards, the value a failed
`iss >> nextAccountNumber` writes. -/
theorem loadFromFile_garbage :
    parseAccount "abc".toList = none ∧ parseInt "abc".toList = none ∧
      Bank.init.nextAccountNumber = 1000 ∧
      (Bank.init.loadFromFile (some "abc\n".toList)).1 = ⟨[], 0⟩ := by
  decide!

end Banking
